import Mathlib

/-!
# VideoSort — verification of the identification pipeline and file operations

Shallow embedding of the VideoSort repository (`src/`):

* `video_analysis.py` — season/episode extraction from filenames
  (`extract_season_episode_from_filename`), embedded via a small
  backtracking matcher faithful to Python `re.search` on the seven
  patterns the source uses;
* `utils.py` — `clean_filename`;
* `tmdb_api.py` — `search_tmdb_multilang` (retry logic) and
  `search_by_actors` (credit-frequency cross-reference), with the HTTP
  layer modelled as an oracle answering each request;
* `process.py` — the fallback identification chain of
  `process_single_video` and the `no_action` record of `process_batch`;
* `studio_detect.py` — `detect_studio_from_logo` (threshold filter,
  resize rule, best-match selection), with template-matching scores
  provided by an oracle;
* `files_ops.py` — `safe_move_file`, `process_file_operation`,
  `restore_from_backup` over an explicit filesystem state.

External effects (HTTP responses, OpenCV correlation scores, raised
exceptions inside `try` blocks, filesystem contents) are modelled as
explicit data; all numeric scores are rationals.
-/

namespace VideoSort

/-! ## Python string helpers -/

/-- Python `str.strip()` whitespace set (ASCII part). -/
def pyIsSpace (c : Char) : Bool :=
  c = ' ' || c = '\t' || c = '\n' || c = '\r' || c = '\x0b' || c = '\x0c'

/-- Python `str.strip()` on a list of characters. -/
def pyStripList (cs : List Char) : List Char :=
  ((cs.dropWhile pyIsSpace).reverse.dropWhile pyIsSpace).reverse

/-- Python `str.strip()`. -/
def pyStrip (s : String) : String :=
  String.mk (pyStripList s.data)

/-- Case-insensitive prefix removal: if `cs` starts with the characters
of `p` (comparing lower-cased), return the rest of `cs`. -/
def dropPrefixCI : List Char → List Char → Option (List Char)
  | [], cs => some cs
  | _ :: _, [] => none
  | p :: ps, c :: cs =>
    if p.toLower = c.toLower then dropPrefixCI ps cs else none

/-- Whether `cs` starts with the characters of `p` (case sensitive). -/
def startsWithList : List Char → List Char → Bool
  | [], _ => true
  | _ :: _, [] => false
  | p :: ps, c :: cs => p = c && startsWithList ps cs

/-- Number of leading characters of `cs` satisfying `p`. -/
def countLeading (p : Char → Bool) : List Char → Nat
  | [] => 0
  | c :: cs => if p c then countLeading p cs + 1 else 0

/-- Python `int` on a (nonempty) string of decimal digits. -/
def digitsToNat (s : String) : Nat :=
  s.data.foldl (fun a c => a * 10 + (c.toNat - 48)) 0

/-! ## A backtracking matcher for the source's season/episode regexes

`video_analysis.py` (`extract_season_episode_from_filename`) runs
`re.search(pattern, filename, re.IGNORECASE)` over seven patterns built
from case-insensitive literals, the class `[^0-9]` (once or starred) and
captured digit groups `(\d+)`, `(\d{1,2})`, `(\d{2})`.  `Piece`
represents exactly these constructs; `matchPieces` reproduces Python's
greedy backtracking (longest repetition first), and `searchAt` Python's
leftmost-match search.  Digits are ASCII `0`-`9`. -/

inductive Piece where
  /-- a case-insensitive literal -/
  | lit (s : String)
  /-- the class `[^0-9]`, exactly once -/
  | nd
  /-- the class `[^0-9]` starred -/
  | ndStar
  /-- a captured run of digits, at least `lo` and (when given) at most
  `hi` of them; `i` is the group index (1 or 2) -/
  | grp (i : Nat) (lo : Nat) (hi : Option Nat)
deriving Repr, DecidableEq

/-- Candidate repetition counts in greedy (descending) order, from
`upper` down to `lo`; empty when `upper < lo`. -/
def descKs (lo upper : Nat) : List Nat :=
  if upper < lo then [] else (List.range' lo (upper - lo + 1)).reverse

/-- Backtracking matcher: does a prefix of `cs` match the piece list,
and with which two captured groups?  Quantified pieces try the longest
repetition first, as Python's greedy engine does. -/
def matchPieces : List Piece → List Char → Option String → Option String →
    Option (String × String)
  | [], _, g1, g2 =>
    match g1, g2 with
    | some a, some b => some (a, b)
    | _, _ => none
  | .lit s :: ps, cs, g1, g2 =>
    match dropPrefixCI s.data cs with
    | some rest => matchPieces ps rest g1 g2
    | none => none
  | .nd :: ps, cs, g1, g2 =>
    match cs with
    | [] => none
    | c :: rest => if c.isDigit then none else matchPieces ps rest g1 g2
  | .ndStar :: ps, cs, g1, g2 =>
    let m := countLeading (fun c => !c.isDigit) cs
    (descKs 0 m).findSome? fun k => matchPieces ps (cs.drop k) g1 g2
  | .grp i lo hi :: ps, cs, g1, g2 =>
    let m := countLeading Char.isDigit cs
    let upper := match hi with | none => m | some h => min h m
    (descKs lo upper).findSome? fun k =>
      let g := String.mk (cs.take k)
      matchPieces ps (cs.drop k)
        (if i = 1 then some g else g1) (if i = 2 then some g else g2)

/-- `re.search`: try a match at every start position, leftmost first. -/
def searchAt (ps : List Piece) : List Char → Option (String × String)
  | [] => matchPieces ps [] none none
  | c :: cs =>
    match matchPieces ps (c :: cs) none none with
    | some r => some r
    | none => searchAt ps cs

/-- Search a pattern in a string and convert both captured digit groups
with Python `int`. -/
def reSearch (ps : List Piece) (s : String) : Option (Nat × Nat) :=
  (searchAt ps s.data).map fun g => (digitsToNat g.1, digitsToNat g.2)

/-- `r'S(\d+)E(\d+)'` -/
def patSxE : List Piece := [.lit "s", .grp 1 1 none, .lit "e", .grp 2 1 none]

/-- `r'(\d+)x(\d+)'` -/
def patNxN : List Piece := [.grp 1 1 none, .lit "x", .grp 2 1 none]

/-- `r'[^0-9](\d{1,2})(\d{2})[^0-9]'` -/
def patBareDigits : List Piece := [.nd, .grp 1 1 (some 2), .grp 2 2 (some 2), .nd]

/-- `r'Season[^0-9]*(\d+)[^0-9]*Episode[^0-9]*(\d+)'` -/
def patSeasonEpisode : List Piece :=
  [.lit "season", .ndStar, .grp 1 1 none, .ndStar, .lit "episode", .ndStar,
   .grp 2 1 none]

/-- `r'Temporada[^0-9]*(\d+)[^0-9]*Capitulo[^0-9]*(\d+)'` -/
def patTemporada : List Piece :=
  [.lit "temporada", .ndStar, .grp 1 1 none, .ndStar, .lit "capitulo", .ndStar,
   .grp 2 1 none]

/-- `r'T(\d+)[^0-9]*C(\d+)'` -/
def patTC : List Piece := [.lit "t", .grp 1 1 none, .ndStar, .lit "c", .grp 2 1 none]

/-- `r'Temp(\d+)[^0-9]*Cap(\d+)'` -/
def patTempCap : List Piece :=
  [.lit "temp", .grp 1 1 none, .ndStar, .lit "cap", .grp 2 1 none]

/-- The pattern list of `extract_season_episode_from_filename`, in
source order. -/
def sePatterns : List (List Piece) :=
  [patSxE, patNxN, patBareDigits, patSeasonEpisode, patTemporada, patTC,
   patTempCap]

/-- `video_analysis.extract_season_episode_from_filename`: try each
pattern in order; on the first match return the two captured integers;
`none` models the `(None, None)` return. -/
def extract_season_episode_from_filename (filename : String) :
    Option (Nat × Nat) :=
  sePatterns.findSome? fun p => reSearch p filename

/-! ## `os.path.splitext` and `utils.clean_filename` -/

/-- Index of the last element satisfying `p`, if any. -/
def lastIdx (p : Char → Bool) (cs : List Char) : Option Nat :=
  (cs.reverse.findIdx? p).map fun k => cs.length - 1 - k

/-- `os.path.splitext`: split off the extension at the last `.` that
lies after the last path separator, provided the final path component
is not entirely dots before that `.` (so `.bashrc` has no extension).
Both `/` and `\` count as separators. -/
def splitextStr (s : String) : String × String :=
  let cs := s.data
  match lastIdx (fun c => c = '.') cs with
  | none => (s, "")
  | some dotPos =>
    let sepPos := lastIdx (fun c => c = '/' || c = '\\') cs
    let fIdx := match sepPos with | none => 0 | some sp => sp + 1
    if (match sepPos with | none => true | some sp => sp < dotPos) &&
        ((cs.drop fIdx).take (dotPos - fIdx)).any (fun c => c ≠ '.') then
      (String.mk (cs.take dotPos), String.mk (cs.drop dotPos))
    else
      (s, "")

/-- `re.sub` of a delimited span `op … cl` (regex `\[[^\]]*\]` or
`\([^)]*\)`) with the empty string: each `op` is removed together with
everything up to the first following `cl`; an `op` with no later `cl`
is kept.  `fuel` is an upper bound on the input length. -/
def removeDelim (op cl : Char) : Nat → List Char → List Char
  | 0, cs => cs
  | _ + 1, [] => []
  | fuel + 1, c :: cs =>
    if c = op then
      match cs.findIdx? (fun d => d = cl) with
      | some k => removeDelim op cl fuel (cs.drop (k + 1))
      | none => c :: removeDelim op cl fuel cs
    else c :: removeDelim op cl fuel cs

/-- The `common_terms` list of `utils.clean_filename`, in source
order (the order decides which alternative of the `\b(...)\b`
alternation matches first). -/
def commonTerms : List String :=
  ["Latino", "Castellano", "Español", "ESP", "LAT", "Subtitulado", "Subs",
   "Temporada", "Capitulo", "Cap", "Temp", "T", "E", "S", "Serie",
   "Completa", "Saga", "Trilogia", "Duologia",
   "Season", "Episode", "Complete", "Trilogy", "Duology",
   "HDTV", "BluRay", "BRRip", "DVDRip", "WEB-DL", "WEBRip",
   "XviD", "MP4", "x264", "x265", "HEVC", "AAC", "AC3",
   "Rip", "Screener", "CAM", "TS", "HD", "FHD", "UHD", "4K"]

/-- Python `\w` (ASCII part): letters, digits, underscore. -/
def isWordChar (c : Char) : Bool := c.isAlphanum || c = '_'

/-- First term of `commonTerms` (in list order, as Python's alternation
tries them) matching case-insensitively at the head of `cs` with a word
boundary after it; returns the remaining input. -/
def matchTerm (cs : List Char) : Option (List Char) :=
  commonTerms.findSome? fun t =>
    match dropPrefixCI t.data cs with
    | some rest =>
      match rest with
      | [] => some []
      | c :: _ => if isWordChar c then none else some rest
    | none => none

/-- `re.sub(r'\b(term|…)\b', '', name, flags=re.IGNORECASE)`: scan left
to right; at every position preceded by a non-word character (or the
start), remove the first matching term; matching resumes after the
removed text.  `prevWord` says whether the previous character of the
input was a word character; `fuel` bounds the input length. -/
def subTermsGo : Nat → Bool → List Char → List Char
  | 0, _, cs => cs
  | _ + 1, _, [] => []
  | fuel + 1, prevWord, c :: cs =>
    if !prevWord then
      match matchTerm (c :: cs) with
      | some rest => subTermsGo fuel true rest
      | none => c :: subTermsGo fuel (isWordChar c) cs
    else c :: subTermsGo fuel (isWordChar c) cs

/-- `re.sub(r'\s+', ' ', name)`: collapse whitespace runs to one
space. -/
def collapseGo : Bool → List Char → List Char
  | _, [] => []
  | prevSp, c :: cs =>
    if pyIsSpace c then
      if prevSp then collapseGo true cs else ' ' :: collapseGo true cs
    else c :: collapseGo false cs

/-- The leading-article alternation of `clean_filename`, in source
order. -/
def leadingArticles : List String :=
  ["El", "La", "Los", "Las", "Un", "Una", "Unos", "Unas", "The", "A", "An"]

/-- `re.sub(r'^(El|…|An) ', '', name, flags=re.IGNORECASE)`: drop one
leading article followed by a space, first matching alternative
wins. -/
def removeLeadingArticle (cs : List Char) : List Char :=
  match leadingArticles.findSome? (fun a => dropPrefixCI (a.data ++ [' ']) cs) with
  | some rest => rest
  | none => cs

/-- `utils.clean_filename`: drop the extension, remove `[...]` and
`(...)` tags, turn `.`/`_`/`-` into spaces, delete the common release
terms at word boundaries, collapse whitespace, strip, and drop a
leading article. -/
def clean_filename (filename : String) : String :=
  let name := (splitextStr filename).1.data
  let name := removeDelim '[' ']' name.length name
  let name := removeDelim '(' ')' name.length name
  let name := name.map fun c => if c = '.' || c = '_' || c = '-' then ' ' else c
  let name := subTermsGo (name.length + 1) false name
  let name := pyStripList (collapseGo false name)
  String.mk (removeLeadingArticle name)

/-- `os.path.basename`: the part after the last path separator. -/
def pyBasename (s : String) : String :=
  match lastIdx (fun c => c = '/' || c = '\\') s.data with
  | some k => String.mk (s.data.drop (k + 1))
  | none => s

/-! ## TMDb model (`tmdb_api.py`)

HTTP traffic is modelled by an oracle: every request the code can issue
is a field of `TmdbOracle`, and a response is either parsed JSON data
(with its status code) or `exn`, a raised exception (network failure or
bad JSON).  Search responses are keyed by the remaining-attempts counter
as well, so that retries of the same query can be answered
differently. -/

/-- One result dictionary returned by TMDb.  Fields the source reads
with `.get` are `Option`s (movies carry `title`/`release_date`, series
carry `name`/`first_air_date`); `id` is always present in TMDb data, so
the source's `"id" in item` guard is vacuously true here. -/
structure TmdbItem where
  id : Nat
  title : Option String
  name : Option String
  releaseDate : Option String
  firstAirDate : Option String
  popularity : Option ℚ
deriving DecidableEq, Repr

/-- Response of a search endpoint: raised exception, or a status code
with the parsed `results` list. -/
inductive TmdbResponse where
  | exn
  | http (code : Nat) (results : List TmdbItem)
deriving DecidableEq, Repr

/-- Response of a detail endpoint. -/
inductive DetailResponse where
  | exn
  | http (code : Nat) (item : TmdbItem)
deriving DecidableEq, Repr

/-- Response of a credits endpoint: the `cast` key may be absent. -/
inductive CreditsResponse where
  | exn
  | http (code : Nat) (cast : Option (List TmdbItem))
deriving DecidableEq, Repr

/-- The network, as the code observes it. -/
structure TmdbOracle where
  /-- `GET /search/movie` or `/search/tv` — series?, query, language,
  remaining-attempts counter. -/
  search : Bool → String → String → Nat → TmdbResponse
  /-- `GET /movie/{id}` or `/tv/{id}` in English — series?, id,
  remaining-attempts counter. -/
  detail : Bool → Nat → Nat → DetailResponse
  /-- `GET /search/person` by actor name. -/
  person : String → TmdbResponse
  /-- `GET /person/{id}/movie_credits` or `/tv_credits`. -/
  credits : Bool → Nat → CreditsResponse

/-- Configuration fields of `config` that the embedded code reads. -/
structure Config where
  outputLanguage : String
  captureFrames : Bool
  detectStudios : Bool
  detectActors : Bool
deriving DecidableEq, Repr

/-- Outcome of processing one language inside the `for lang in
languages` loop of `search_tmdb_multilang`: the updated best result and
the number of HTTP requests issued, or an exception (requests before
the exception still counted). -/
inductive LangStep where
  | ok (best : Option TmdbItem) (calls : Nat)
  | exn (calls : Nat)
deriving DecidableEq, Repr

/-- `result.get('popularity', 0)`. -/
def pop (r : TmdbItem) : ℚ := r.popularity.getD 0

/-- One language pass of `search_tmdb_multilang`: issue the search
request; on status 200 with a nonempty result list take the first
result, keep it if it is the first or strictly more popular than the
current best, fetching the English details first when the language is
not English but English output is requested. -/
def langStep (o : TmdbOracle) (query : String) (outputLang : String)
    (isSeries : Bool) (lang : String) (att : Nat) (best : Option TmdbItem) :
    LangStep :=
  match o.search isSeries query lang att with
  | .exn => .exn 1
  | .http code results =>
    if code = 200 then
      match results with
      | [] => .ok best 1
      | r :: _ =>
        if best.all fun b => pop r > pop b then
          if lang ≠ "en" && outputLang = "en" then
            match o.detail isSeries r.id att with
            | .exn => .exn 2
            | .http dcode ditem =>
              .ok (some (if dcode = 200 then ditem else r)) 2
          else .ok (some r) 1
        else .ok best 1
    else .ok best 1

/-- The languages loop when no retry is possible (`attempts <= 1`):
an exception is caught and the loop simply moves on to the next
language, leaving `best_result` unchanged. -/
def searchNoRetry (o : TmdbOracle) (query : String) (outputLang : String)
    (isSeries : Bool) (att : Nat) : Option TmdbItem × Nat :=
  match langStep o query outputLang isSeries "es" att none with
  | .exn c1 =>
    (match langStep o query outputLang isSeries "en" att none with
     | .exn c2 => (none, c1 + c2)
     | .ok b c2 => (b, c1 + c2))
  | .ok b c1 =>
    (match langStep o query outputLang isSeries "en" att b with
     | .exn c2 => (b, c1 + c2)
     | .ok b2 c2 => (b2, c1 + c2))

/-- `search_tmdb_multilang`, with an HTTP-request count: try Spanish
then English; any exception with `attempts > 1` restarts the whole
search with `attempts - 1` (discarding the partial best), otherwise the
exception only ends that language pass. -/
def searchCore (o : TmdbOracle) (query : String) (outputLang : String)
    (isSeries : Bool) : Nat → Option TmdbItem × Nat
  | 0 => searchNoRetry o query outputLang isSeries 0
  | 1 => searchNoRetry o query outputLang isSeries 1
  | n + 2 =>
    match langStep o query outputLang isSeries "es" (n + 2) none with
    | .exn c1 =>
      let (r, c2) := searchCore o query outputLang isSeries (n + 1)
      (r, c1 + c2)
    | .ok b c1 =>
      match langStep o query outputLang isSeries "en" (n + 2) b with
      | .exn c2 =>
        let (r, c3) := searchCore o query outputLang isSeries (n + 1)
        (r, c1 + c2 + c3)
      | .ok b2 c2 => (b2, c1 + c2)

/-- `search_tmdb_multilang` result (`attempts` defaults to 3 as in the
source).  The returned kind is `not is_series` whenever a result is
returned, so it is left implicit. -/
def search_tmdb_multilang (o : TmdbOracle) (query : String) (cfg : Config)
    (isSeries : Bool) (attempts : Nat := 3) : Option TmdbItem :=
  (searchCore o query cfg.outputLanguage isSeries attempts).1

/-- Number of HTTP requests a `search_tmdb_multilang` call issues. -/
def searchCalls (o : TmdbOracle) (query : String) (cfg : Config)
    (isSeries : Bool) (attempts : Nat := 3) : Nat :=
  (searchCore o query cfg.outputLanguage isSeries attempts).2

/-! ### `search_by_actors` -/

/-- Resolve each actor name to a TMDb person id (first search result);
names whose search is not 200/nonempty are silently dropped; a raised
exception aborts the whole function (`Except.error`). -/
def resolveActorIds (o : TmdbOracle) : List String → List Nat →
    Except Unit (List Nat)
  | [], acc => .ok acc
  | a :: rest, acc =>
    match o.person a with
    | .exn => .error ()
    | .http code results =>
      match code, results with
      | 200, r :: _ => resolveActorIds o rest (acc ++ [r.id])
      | _, _ => resolveActorIds o rest acc

/-- Collect the `cast` lists of every resolved actor id into
`all_results`, in order. -/
def collectCast (o : TmdbOracle) (isSeries : Bool) : List Nat →
    List TmdbItem → Except Unit (List TmdbItem)
  | [], acc => .ok acc
  | i :: rest, acc =>
    match o.credits isSeries i with
    | .exn => .error ()
    | .http code cast =>
      if code = 200 then
        match cast with
        | some l => collectCast o isSeries rest (acc ++ l)
        | none => collectCast o isSeries rest acc
      else collectCast o isSeries rest acc

/-- The distinct values of a list in first-occurrence order —
the insertion order of `collections.Counter`. -/
def distinctInOrder (l : List Nat) : List Nat :=
  l.foldl (fun acc x => if x ∈ acc then acc else acc ++ [x]) []

/-- `Counter(l).most_common()[0]`: the value with the largest count;
ties go to the earliest first occurrence (Python's stable sort over
insertion order). -/
def mostCommonHead (l : List Nat) : Option (Nat × Nat) :=
  match distinctInOrder l with
  | [] => none
  | d :: ds =>
    some (ds.foldl
      (fun best x => if l.count x > best.2 then (x, l.count x) else best)
      (d, l.count d))

/-- `id_to_info[i]`: the last cast item carrying id `i` (later items
overwrite earlier ones in the Python dict). -/
def lastWithId (items : List TmdbItem) (i : Nat) : Option TmdbItem :=
  items.reverse.find? fun it => it.id == i

/-- `search_by_actors`: resolve actor ids, gather their credit lists,
and return the most frequently credited title when its frequency
reaches `min(2, len(actor_ids))`; any exception returns no result. -/
def search_by_actors (o : TmdbOracle) (actors : List String)
    (isSeries : Bool) : Option TmdbItem :=
  if actors.isEmpty then none
  else
    match resolveActorIds o actors [] with
    | .error _ => none
    | .ok ids =>
      if ids.isEmpty then none
      else
        match collectCast o isSeries ids [] with
        | .error _ => none
        | .ok items =>
          match mostCommonHead (items.map (·.id)) with
          | none => none
          | some (bestId, freq) =>
            if freq ≥ min 2 ids.length then lastWithId items bestId
            else none

/-! ## The identification pipeline (`process.py`, `process_single_video`)

Everything the pipeline learns from the file itself (validity, quality,
OCR text, subtitle text, extracted frames, and the outputs of the
studio and actor detectors, which wrap OpenCV / face models) is
packaged in `Env`; the decision logic over it is embedded faithfully. -/

/-- Per-file environment: what analysis of the video produced. -/
structure Env where
  tmdb : TmdbOracle
  /-- `os.path.exists(filepath) and is_valid_video(filepath, config)` -/
  fileValid : Bool
  /-- `content_results["quality"]` -/
  quality : String
  /-- `content_results["ocr_text"]` -/
  ocrText : String
  /-- `content_results["subtitles_text"]` -/
  subtitlesText : String
  /-- the `frame_*.png` files found in the temp directory -/
  frames : List String
  /-- output of `detect_studios_in_frames` -/
  studios : List String
  /-- output of `detect_actors_in_frames` -/
  actors : List String

/-- The OCR fragments the pipeline queries: stripped lines longer than
15 characters, first five. -/
def ocrFragments (t : String) : List String :=
  ((t.splitOn "\n").filterMap fun l =>
    let s := pyStrip l
    if s.length > 15 then some s else none).take 5

/-- The subtitle queries: of the first five `\n\n`-separated blocks,
drop lines whose stripped form starts with `-->`, and when lines
remain, join them with spaces. -/
def subtitleQueries (t : String) : List String :=
  ((t.splitOn "\n\n").take 5).filterMap fun block =>
    let lines := (block.splitOn "\n").filter fun l =>
      !(pyStrip l).startsWith "-->"
    if lines.isEmpty then none else some (String.intercalate " " lines)

/-- `search_tmdb_multilang` as movie, then (when that fails) as series;
`true` in the returned pair means movie. -/
def tryBothKinds (o : TmdbOracle) (cfg : Config) (q : String) :
    Option (TmdbItem × Bool) :=
  match search_tmdb_multilang o q cfg false with
  | some r => some (r, true)
  | none => (search_tmdb_multilang o q cfg true).map fun r => (r, false)

/-- `search_by_actors` as movie, then (when that fails) as series. -/
def tryActorsBothKinds (o : TmdbOracle) (actors : List String) :
    Option (TmdbItem × Bool) :=
  match search_by_actors o actors false with
  | some r => some (r, true)
  | none => (search_by_actors o actors true).map fun r => (r, false)

/-- The frame files used for detection (step 6 of the source). -/
def frameFiles (env : Env) (cfg : Config) : List String :=
  if cfg.captureFrames && (cfg.detectActors || cfg.detectStudios) then
    env.frames
  else []

/-- `detected_studios` (step 7). -/
def detectedStudios (env : Env) (cfg : Config) : List String :=
  if cfg.detectStudios && !(frameFiles env cfg).isEmpty then env.studios
  else []

/-- `detected_actors` (step 8). -/
def detectedActors (env : Env) (cfg : Config) : List String :=
  if cfg.detectActors && !(frameFiles env cfg).isEmpty then env.actors
  else []

/-- The fallback chain of `process_single_video`, exactly as the nested
`if not result` blocks of the source: filename as movie then series,
then OCR fragments, then subtitle blocks, then recognized actors. -/
def chainCode (env : Env) (cfg : Config) (cleanedName : String) :
    Option (TmdbItem × Bool) :=
  let r := tryBothKinds env.tmdb cfg cleanedName
  let r := match r with
    | some x => some x
    | none =>
      if env.ocrText ≠ "" then
        (ocrFragments env.ocrText).findSome? (tryBothKinds env.tmdb cfg)
      else none
  let r := match r with
    | some x => some x
    | none =>
      if env.subtitlesText ≠ "" then
        (subtitleQueries env.subtitlesText).findSome? (tryBothKinds env.tmdb cfg)
      else none
  match r with
  | some x => some x
  | none =>
    if !(detectedActors env cfg).isEmpty then
      tryActorsBothKinds env.tmdb (detectedActors env cfg)
    else none

/-- Modelled from the spec (section 4.1, for the refinement claim):
the identification chain as one flat, ordered list of
(query, is-series) textual sources — cleaned filename as movie then
series, each OCR fragment as movie then series, each subtitle block as
movie then series — followed by the actor cross-reference, the first
acceptance winning. -/
def specQueries (env : Env) (cleanedName : String) : List (String × Bool) :=
  [(cleanedName, false), (cleanedName, true)]
  ++ (if env.ocrText ≠ "" then
        (ocrFragments env.ocrText).flatMap fun f => [(f, false), (f, true)]
      else [])
  ++ (if env.subtitlesText ≠ "" then
        (subtitleQueries env.subtitlesText).flatMap fun q => [(q, false), (q, true)]
      else [])

/-- Modelled from the spec (section 4.1): first acceptance along the
ordered source list terminates the chain. -/
def chainSpec (env : Env) (cfg : Config) (cleanedName : String) :
    Option (TmdbItem × Bool) :=
  match (specQueries env cleanedName).findSome?
      (fun qb => (search_tmdb_multilang env.tmdb qb.1 cfg qb.2).map
        fun r => (r, !qb.2)) with
  | some x => some x
  | none =>
    if !(detectedActors env cfg).isEmpty then
      match search_by_actors env.tmdb (detectedActors env cfg) false with
      | some r => some (r, true)
      | none =>
        (search_by_actors env.tmdb (detectedActors env cfg) true).map
          fun r => (r, false)
    else none

/-- The dictionary `process_single_video` returns; keys that a branch
does not set are `none`/`[]`. -/
structure ProcResult where
  identificado : Bool
  esPelicula : Option Bool
  info : Option TmdbItem
  quality : Option String
  season : Option Nat
  episode : Option Nat
  detectedStudios : List String
  detectedActors : List String
  mensaje : Option String
deriving DecidableEq, Repr

/-- `process_single_video`: validity check, identification chain,
season/episode defaulting for series, and the matched/unmatched result
dictionaries. -/
def process_single_video (env : Env) (cfg : Config) (filepath : String) :
    ProcResult :=
  if !env.fileValid then
    { identificado := false, esPelicula := none, info := none,
      quality := none, season := none, episode := none,
      detectedStudios := [], detectedActors := [],
      mensaje := some "Archivo inválido o no existe" }
  else
    let originalFilename := pyBasename filepath
    let cleaned := clean_filename originalFilename
    match chainCode env cfg cleaned with
    | some (item, isMovie) =>
      let se : Option Nat × Option Nat :=
        if !isMovie then
          match extract_season_episode_from_filename originalFilename with
          | some (s, e) => (some s, some e)
          | none => (some 1, some 1)
        else (none, none)
      { identificado := true, esPelicula := some isMovie, info := some item,
        quality := some env.quality, season := se.1, episode := se.2,
        detectedStudios := detectedStudios env cfg,
        detectedActors := detectedActors env cfg, mensaje := none }
    | none =>
      { identificado := false, esPelicula := none, info := none,
        quality := some env.quality, season := none, episode := none,
        detectedStudios := detectedStudios env cfg,
        detectedActors := detectedActors env cfg,
        mensaje := some "No se pudo identificar" }

/-! ## Logo detection (`studio_detect.py`, `detect_studio_from_logo`)

Image contents are abstracted to their shapes; the normalized
cross-correlation score that `cv2.matchTemplate`/`cv2.minMaxLoc`
produce for a given logo file matched at a given (possibly resized)
shape is supplied by an oracle. -/

/-- An image shape: `shape[0]` (height) and `shape[1]` (width). -/
structure ImgShape where
  h : Nat
  w : Nat
deriving DecidableEq, Repr

/-- One entry of `get_logo_files` plus the result of `cv2.imread`
(`none` models a file OpenCV could not load). -/
structure LogoFile where
  studio : String
  path : String
  img : Option ImgShape
deriving DecidableEq, Repr

/-- The `max_val` of template-matching a logo file (resized to the
given shape) against the current frame. -/
structure LogoOracle where
  score : String → ImgShape → ℚ

/-- The resize of a logo larger than the frame: aspect-preserving
fitting scale, times 0.8, dimensions truncated with `int`. -/
def resizeLogo (image logo : ImgShape) : ImgShape :=
  let scale : ℚ := min ((image.h : ℚ) / (logo.h : ℚ)) ((image.w : ℚ) / (logo.w : ℚ))
  let scale := scale * (4 / 5)
  ⟨((logo.h : ℚ) * scale).floor.toNat, ((logo.w : ℚ) * scale).floor.toNat⟩

/-- Whether a logo shape exceeds the frame in either dimension. -/
def tooLarge (image logo : ImgShape) : Bool :=
  logo.h > image.h || logo.w > image.w

/-- One iteration of the logo loop: skip an unloadable image, resize a
logo larger than the frame, skip it when it still does not fit, and
accept `(studio, score)` when the score reaches the threshold. -/
def logoEntry (o : LogoOracle) (image : ImgShape) (threshold : ℚ)
    (lf : LogoFile) : Option (String × ℚ) :=
  match lf.img with
  | none => none
  | some li =>
    let li := if tooLarge image li then resizeLogo image li else li
    if tooLarge image li then none
    else
      let s := o.score lf.path li
      if s ≥ threshold then some (lf.studio, s) else none

/-- The accepted matches of `detect_studio_from_logo`. -/
def logoMatches (o : LogoOracle) (image : ImgShape) (logoFiles : List LogoFile)
    (threshold : ℚ) : List (String × ℚ) :=
  logoFiles.filterMap (logoEntry o image threshold)

/-- Python `max(matches, key=lambda x: x[1])`: the first entry with the
largest score. -/
def maxBySnd : List (String × ℚ) → Option (String × ℚ)
  | [] => none
  | m :: ms => some (ms.foldl (fun best x => if x.2 > best.2 then x else best) m)

/-- `detect_studio_from_logo` (threshold defaults to 0.7): the studio
of the best accepted match, if any. -/
def detect_studio_from_logo (o : LogoOracle) (image : ImgShape)
    (logoFiles : List LogoFile) (threshold : ℚ := 7 / 10) : Option String :=
  if logoFiles.isEmpty then none
  else (maxBySnd (logoMatches o image logoFiles threshold)).map (·.1)

/-! ## File operations (`files_ops.py`)

The filesystem is a list of (path, file-identity) pairs with distinct
paths.  `shutil.move` renames one file; when the destination path is
already occupied it silently replaces that file (POSIX `os.rename`
semantics), which is how a previously placed file can be lost. -/

/-- Filesystem state: existing files, identified by an abstract tag so
that overwrites are observable. -/
abbrev FS := List (String × Nat)

/-- `os.path.exists`. -/
def fsExists (fs : FS) (p : String) : Bool := fs.any (·.1 == p)

/-- The identity of the file at a path. -/
def fsGet (fs : FS) (p : String) : Option Nat :=
  (fs.find? (·.1 == p)).map (·.2)

/-- Remove the entry at a path. -/
def fsRemove (fs : FS) (p : String) : FS := fs.filter (·.1 != p)

/-- `shutil.move src dst`: the file at `src` ends up at `dst`; a file
already at `dst` is silently replaced.  With no file at `src` the model
leaves the state unchanged (the code never reaches that case without
checking). -/
def fsMove (fs : FS) (src dst : String) : FS :=
  match fsGet fs src with
  | none => fs
  | some fid => fsRemove (fsRemove fs src) dst ++ [(dst, fid)]

/-- `safe_move_file`: fail when the source is missing; when the
destination exists, retarget once to `base + "_duplicado" + ext`; then
move (`moveOk` models whether `shutil.move` raises). -/
def safe_move_file (fs : FS) (sourcePath destPath : String)
    (moveOk : Bool := true) : Bool × FS :=
  if !fsExists fs sourcePath then (false, fs)
  else
    let dest :=
      if fsExists fs destPath then
        let (base, ext) := splitextStr destPath
        base ++ "_duplicado" ++ ext
      else destPath
    if moveOk then (true, fsMove fs sourcePath dest) else (false, fs)

/-- `sanitize_filename`: strip filesystem-invalid characters and cap
the length at 240 (truncating the stem to 236). -/
def sanitize_filename (s : String) : String :=
  let s := String.mk (s.data.filter fun c =>
    !(c = '<' || c = '>' || c = ':' || c = '"' || c = '/' || c = '\\' ||
      c = '|' || c = '?' || c = '*'))
  if s.length > 240 then
    let (base, ext) := splitextStr s
    base.take 236 ++ ext
  else s

/-- Zero-pad to two digits (`f"{n:02d}"`). -/
def pad2 (n : Nat) : String :=
  if n < 10 then "0" ++ toString n else toString n

/-- `create_movie_path`: `Movies/<Title> (<Year>)/<Title> (<Year>)
[<Quality>]<ext>`. -/
def create_movie_path (baseDir title year quality extension : String) :
    String × String :=
  let safeTitle := sanitize_filename title
  let folderName := safeTitle ++ " (" ++ year ++ ")"
  let fileName := safeTitle ++ " (" ++ year ++ ") [" ++ quality ++ "]" ++ extension
  let movieDir := baseDir ++ "/Movies/" ++ folderName
  (movieDir, movieDir ++ "/" ++ fileName)

/-- `create_tv_path`: `Shows/<Title> (<Year>)/Season <NN>/<Title>
S<NN>E<NN> [<Quality>]<ext>`. -/
def create_tv_path (baseDir title year : String) (season episode : Nat)
    (quality extension : String) : String × String :=
  let safeTitle := sanitize_filename title
  let seasonStr := pad2 season
  let episodeStr := pad2 episode
  let seriesFolder := safeTitle ++ " (" ++ year ++ ")"
  let seasonFolder := "Season " ++ seasonStr
  let fileName := safeTitle ++ " S" ++ seasonStr ++ "E" ++ episodeStr ++
    " [" ++ quality ++ "]" ++ extension
  let seasonDir := baseDir ++ "/Shows/" ++ seriesFolder ++ "/" ++ seasonFolder
  (seasonDir, seasonDir ++ "/" ++ fileName)

/-- `create_studio_path`: `ByStudio/<studio-or-SinCadenaTelevisiva>/
<original filename>`. -/
def create_studio_path (baseDir : String) (studioName : Option String)
    (originalFilename : String) : String × String :=
  let studioFolder :=
    match studioName with
    | none => "SinCadenaTelevisiva"
    | some s => if s = "" then "SinCadenaTelevisiva" else sanitize_filename s
  let studioDir := baseDir ++ "/ByStudio/" ++ studioFolder
  (studioDir, studioDir ++ "/" ++ originalFilename)

/-- One row of the backup CSV (`append_to_backup` adds the timestamp,
which carries no logic). -/
structure BackupRecord where
  nombre_original : String
  ruta_original : String
  nombre_nuevo : String
  ruta_nueva : String
  status : String
deriving DecidableEq, Repr

/-- The destination file `process_file_operation` computes from an
identification result. -/
def destFileFor (resultInfo : ProcResult) (outputDir originalFilename
    extension : String) : String :=
  if resultInfo.identificado then
    if resultInfo.esPelicula = some true then
      -- identified results always carry `info`; the default is never read
      let info := resultInfo.info.getD ⟨0, none, none, none, none, none⟩
      let title := info.title.getD "Unknown"
      let year := match info.releaseDate with
        | some d => if d ≠ "" then d.take 4 else "Unknown"
        | none => "Unknown"
      let quality := resultInfo.quality.getD "Unknown"
      (create_movie_path outputDir title year quality extension).2
    else
      let info := resultInfo.info.getD ⟨0, none, none, none, none, none⟩
      let title := info.name.getD "Unknown"
      let year := match info.firstAirDate with
        | some d => if d ≠ "" then d.take 4 else "Unknown"
        | none => "Unknown"
      let quality := resultInfo.quality.getD "Unknown"
      let season := resultInfo.season.getD 1
      let episode := resultInfo.episode.getD 1
      (create_tv_path outputDir title year season episode quality extension).2
  else
    let studio := match resultInfo.detectedStudios with
      | [] => none
      | s :: _ => some s
    (create_studio_path outputDir studio originalFilename).2

/-- `process_file_operation`: missing source gives an `error_origen`
row; an exception inside the `try` (modelled by `exnMsg`) gives an
`error: <msg>` row; otherwise the computed destination is attempted
with `safe_move_file` and a `success` or `error_mover` row records the
pre-collision destination path. -/
def process_file_operation (fs : FS) (sourcePath : String)
    (resultInfo : ProcResult) (outputDir : String)
    (exnMsg : Option String := none) (moveOk : Bool := true) :
    BackupRecord × FS :=
  if !fsExists fs sourcePath then
    ({ nombre_original := pyBasename sourcePath, ruta_original := sourcePath,
       nombre_nuevo := "", ruta_nueva := "", status := "error_origen" }, fs)
  else
    let originalFilename := pyBasename sourcePath
    let extension := (splitextStr originalFilename).2.toLower
    match exnMsg with
    | some m =>
      ({ nombre_original := originalFilename, ruta_original := sourcePath,
         nombre_nuevo := "", ruta_nueva := "",
         status := "error: " ++ m }, fs)
    | none =>
      let destFile := destFileFor resultInfo outputDir originalFilename extension
      match safe_move_file fs sourcePath destFile moveOk with
      | (true, fs') =>
        ({ nombre_original := originalFilename, ruta_original := sourcePath,
           nombre_nuevo := pyBasename destFile, ruta_nueva := destFile,
           status := "success" }, fs')
      | (false, fs') =>
        ({ nombre_original := originalFilename, ruta_original := sourcePath,
           nombre_nuevo := pyBasename destFile, ruta_nueva := destFile,
           status := "error_mover" }, fs')

/-- The record `process_batch` appends when `rename_files` is off. -/
def no_action_record (video : String) : BackupRecord :=
  { nombre_original := pyBasename video, ruta_original := video,
    nombre_nuevo := "", ruta_nueva := "", status := "no_action" }

/-! ### `restore_from_backup` -/

/-- One move the restore loop attempted: the row, the filesystem just
before, and whether `shutil.move` succeeded. -/
structure RestoreStep where
  row : BackupRecord
  fsBefore : FS
  ok : Bool
deriving DecidableEq, Repr

/-- Result of a restore run. -/
structure RestoreOut where
  fs : FS
  steps : List RestoreStep
  restored : Nat
  errors : Nat
deriving DecidableEq, Repr

/-- The row loop of `restore_from_backup`: rows are read in file
(append) order; a row is acted on only when its status is `success` and
the recorded new path currently exists; `moveOk` tells whether the
`shutil.move` of the `i`-th attempted move raises (an exception counts
an error and leaves the file in place); all other rows are skipped
silently. -/
def restoreGo (moveOk : Nat → Bool) : List BackupRecord → FS → Nat → RestoreOut
  | [], fs, _ => ⟨fs, [], 0, 0⟩
  | r :: rs, fs, i =>
    if r.status == "success" && fsExists fs r.ruta_nueva then
      if moveOk i then
        let out := restoreGo moveOk rs (fsMove fs r.ruta_nueva r.ruta_original) (i + 1)
        ⟨out.fs, ⟨r, fs, true⟩ :: out.steps, out.restored + 1, out.errors⟩
      else
        let out := restoreGo moveOk rs fs (i + 1)
        ⟨out.fs, ⟨r, fs, false⟩ :: out.steps, out.restored, out.errors + 1⟩
    else restoreGo moveOk rs fs (i + 1)

/-- `restore_from_backup` over the parsed rows of the backup CSV. -/
def restore_from_backup (moveOk : Nat → Bool) (rows : List BackupRecord)
    (fs : FS) : RestoreOut :=
  restoreGo moveOk rows fs 0

/-! ## Status sets and auxiliary chain definitions -/

/-- The status set exactly as the specification writes it (section 3,
data-model invariants). -/
def specStatusSet (s : String) : Prop :=
  s = "success" ∨ s = "error_origin" ∨ s = "error_move" ∨ s = "no_action" ∨
  ∃ m, s = "error:" ++ m

/-- The status set the code actually writes (`files_ops.py` lines
216/259/267/281 and `process.py` line 266). -/
def codeStatusSet (s : String) : Prop :=
  s = "success" ∨ s = "error_origen" ∨ s = "error_mover" ∨ s = "no_action" ∨
  ∃ m, s = "error: " ++ m

/-- The collision name `safe_move_file` retargets to. -/
def duplicadoName (destPath : String) : String :=
  (splitextStr destPath).1 ++ "_duplicado" ++ (splitextStr destPath).2

/-- The oracle in which every HTTP request raises. -/
def allExnOracle : TmdbOracle :=
  ⟨fun _ _ _ _ => .exn, fun _ _ _ => .exn, fun _ => .exn, fun _ _ => .exn⟩

/-- The identification chain from its OCR stage on (what remains after
the cleaned-filename queries yield nothing). -/
def chainRest (env : Env) (cfg : Config) : Option (TmdbItem × Bool) :=
  let r :=
    if env.ocrText ≠ "" then
      (ocrFragments env.ocrText).findSome? (tryBothKinds env.tmdb cfg)
    else none
  let r := match r with
    | some x => some x
    | none =>
      if env.subtitlesText ≠ "" then
        (subtitleQueries env.subtitlesText).findSome? (tryBothKinds env.tmdb cfg)
      else none
  match r with
  | some x => some x
  | none =>
    if !(detectedActors env cfg).isEmpty then
      tryActorsBothKinds env.tmdb (detectedActors env cfg)
    else none

/-! ## Concrete fixtures for witnesses and counterexamples -/

/-- A TMDb series item. -/
def seriesItem : TmdbItem := ⟨42, none, some "My Show", none, some "2020-01-01", some 5⟩

/-- An oracle that answers only the series query `"MyShow"`. -/
def seriesOracle : TmdbOracle :=
  { search := fun isS q _ _ =>
      if isS && q = "MyShow" then .http 200 [seriesItem] else .http 200 []
    detail := fun _ _ _ => .exn
    person := fun _ => .http 200 []
    credits := fun _ _ => .exn }

/-- A configuration with Spanish output and all detectors on. -/
def cfgFix : Config := ⟨"es", true, true, true⟩

/-- Environment in which `"MyShow.mkv"` is identified as a series. -/
def seriesEnv : Env := ⟨seriesOracle, true, "1080p", "", "", ["f1"], ["HBO"], []⟩

/-- Environment whose oracle always raises. -/
def exnEnv : Env := ⟨allExnOracle, true, "720p", "", "", ["f1"], ["FOX"], ["Actor A"]⟩

/-- Credit lists: title 77 is shared by the first two actors. -/
def castA1 : List TmdbItem :=
  [⟨77, some "T", none, none, none, some 1⟩, ⟨5, none, none, none, none, none⟩]

/-- Second actor's credits, also containing title 77. -/
def castA2 : List TmdbItem :=
  [⟨6, none, none, none, none, none⟩, ⟨77, some "T2", none, none, none, some 2⟩]

/-- Third actor's credits, disjoint from the others. -/
def castA3 : List TmdbItem := [⟨9, none, none, none, none, none⟩]

/-- Oracle resolving actors `A1`/`A2`/`A3` and serving their credits;
`B1`/`B2`/`B3` resolve but have pairwise disjoint credit lists. -/
def actorsOracle : TmdbOracle :=
  { search := fun _ _ _ _ => .http 200 []
    detail := fun _ _ _ => .exn
    person := fun a =>
      if a = "A1" then .http 200 [⟨101, none, none, none, none, none⟩]
      else if a = "A2" then .http 200 [⟨102, none, none, none, none, none⟩]
      else if a = "A3" then .http 200 [⟨103, none, none, none, none, none⟩]
      else if a = "B1" then .http 200 [⟨201, none, none, none, none, none⟩]
      else if a = "B2" then .http 200 [⟨202, none, none, none, none, none⟩]
      else if a = "B3" then .http 200 [⟨203, none, none, none, none, none⟩]
      else .http 200 []
    credits := fun _ i =>
      if i = 101 then .http 200 (some castA1)
      else if i = 102 then .http 200 (some castA2)
      else if i = 103 then .http 200 (some castA3)
      else if i = 201 then .http 200 (some [⟨11, none, none, none, none, none⟩])
      else if i = 202 then .http 200 (some [⟨12, none, none, none, none, none⟩])
      else if i = 203 then .http 200 (some [⟨13, none, none, none, none, none⟩])
      else .http 200 (some []) }

/-- An unmatched identification result. -/
def unmatchedResult : ProcResult :=
  ⟨false, none, none, some "720p", none, none, ["FOX"], [],
   some "No se pudo identificar"⟩

/-- A backup row recording a successful move of file `a`. -/
def rowA : BackupRecord := ⟨"a.mkv", "/in/a.mkv", "a2.mkv", "/out/a2.mkv", "success"⟩

/-- A backup row recording a successful move of file `b`. -/
def rowB : BackupRecord := ⟨"b.mkv", "/in/b.mkv", "b2.mkv", "/out/b2.mkv", "success"⟩

/-- A backup row recording a failed move. -/
def rowErr : BackupRecord := ⟨"c.mkv", "/in/c.mkv", "", "", "error_mover"⟩

/-- A success row whose recorded new path does not exist. -/
def rowGone : BackupRecord := ⟨"d.mkv", "/in/d.mkv", "d2.mkv", "/out/d2.mkv", "success"⟩

/-- Filesystem holding the two moved files of `rowA` and `rowB`. -/
def fsAB : FS := [("/out/a2.mkv", 1), ("/out/b2.mkv", 2)]

/-- Two reference logos that both fit the frame. -/
def logoFilesFix : List LogoFile :=
  [⟨"FOX", "l1", some ⟨50, 50⟩⟩, ⟨"HBO", "l2", some ⟨60, 60⟩⟩]

/-- Correlation scores for the two logo files. -/
def logoOracleFix : LogoOracle :=
  ⟨fun p _ => if p = "l1" then 9 / 10 else 8 / 10⟩

/-! # Theorems -/

/-- Claim C3: for every filename containing an `SxxEyy` pattern the
extraction returns exactly the encoded integers; when that pattern is
absent, an `NxNN` pattern likewise yields its encoded integers; and the
extraction returns "not found" (`none`, i.e. `(None, None)`) exactly
when none of its patterns occurs, never a default value. -/
theorem extract_season_episode_correct :
    (∀ fn s e, reSearch patSxE fn = some (s, e) →
      extract_season_episode_from_filename fn = some (s, e)) ∧
    (∀ fn s e, reSearch patSxE fn = none → reSearch patNxN fn = some (s, e) →
      extract_season_episode_from_filename fn = some (s, e)) ∧
    (∀ fn, extract_season_episode_from_filename fn = none ↔
      ∀ p ∈ sePatterns, reSearch p fn = none) := by
  refine ⟨?_, ?_, ?_⟩
  · intro fn s e h
    simp [extract_season_episode_from_filename, sePatterns,
      List.findSome?_cons, h]
  · intro fn s e h1 h2
    simp [extract_season_episode_from_filename, sePatterns,
      List.findSome?_cons, h1, h2]
  · intro fn
    unfold extract_season_episode_from_filename
    exact List.findSome?_eq_none_iff

/-- Witness for C3, at concrete filenames of each kind. -/
theorem extract_season_episode_correct_witness :
    extract_season_episode_from_filename "Show.S02E05.mkv" = some (2, 5) ∧
    extract_season_episode_from_filename "Show 3x07 final.avi" = some (3, 7) ∧
    extract_season_episode_from_filename "plainmovie.mkv" = none :=
  ⟨extract_season_episode_correct.1 _ 2 5 (by decide),
   extract_season_episode_correct.2.1 _ 3 7 (by decide) (by decide),
   (extract_season_episode_correct.2.2 _).mpr (by decide)⟩

/-- Everything the restore loop guarantees at once, by one induction:
the attempted moves are an order-preserving subsequence of the log,
`restored`/`errors` count exactly the attempted moves that
succeeded/failed, and every attempted move was a `success` row whose
recorded new path existed at that moment. -/
theorem restoreGo_spec (moveOk : Nat → Bool) (rows : List BackupRecord) :
    ∀ (fs : FS) (i : Nat),
      ((restoreGo moveOk rows fs i).steps.map (·.row)).Sublist rows ∧
      (restoreGo moveOk rows fs i).restored =
        ((restoreGo moveOk rows fs i).steps.filter (·.ok)).length ∧
      (restoreGo moveOk rows fs i).errors =
        ((restoreGo moveOk rows fs i).steps.filter (fun st => !st.ok)).length ∧
      ∀ st ∈ (restoreGo moveOk rows fs i).steps,
        st.row.status = "success" ∧ fsExists st.fsBefore st.row.ruta_nueva = true := by
  induction rows with
  | nil => intro fs i; simp [restoreGo]
  | cons r rs ih =>
    intro fs i
    by_cases hc : (r.status == "success" && fsExists fs r.ruta_nueva) = true
    · have hpair : (r.status == "success") = true ∧ fsExists fs r.ruta_nueva = true := by
        rw [Bool.and_eq_true] at hc; exact hc
      have hst : r.status = "success" := eq_of_beq hpair.1
      have hex : fsExists fs r.ruta_nueva = true := hpair.2
      by_cases hm : moveOk i = true
      · obtain ⟨h1, h2, h3, h4⟩ := ih (fsMove fs r.ruta_nueva r.ruta_original) (i + 1)
        refine ⟨?_, ?_, ?_, ?_⟩
        · simpa [restoreGo, hc, hm] using List.Sublist.cons₂ r h1
        · simpa [restoreGo, hc, hm, List.filter_cons] using h2
        · simpa [restoreGo, hc, hm, List.filter_cons] using h3
        · intro st hstep
          simp only [restoreGo, hc, hm, if_true, List.mem_cons] at hstep
          rcases hstep with h | h
          · subst h; exact ⟨hst, hex⟩
          · exact h4 st h
      · obtain ⟨h1, h2, h3, h4⟩ := ih fs (i + 1)
        refine ⟨?_, ?_, ?_, ?_⟩
        · simpa [restoreGo, hc, hm] using List.Sublist.cons₂ r h1
        · simpa [restoreGo, hc, hm, List.filter_cons] using h2
        · simpa [restoreGo, hc, hm, List.filter_cons] using h3
        · intro st hstep
          simp only [restoreGo, hc, hm, if_true, Bool.false_eq_true, if_false,
            List.mem_cons] at hstep
          rcases hstep with h | h
          · subst h; exact ⟨hst, hex⟩
          · exact h4 st h
    · obtain ⟨h1, h2, h3, h4⟩ := ih fs (i + 1)
      refine ⟨?_, ?_, ?_, ?_⟩
      · simpa [restoreGo, hc] using h1.cons r
      · simpa [restoreGo, hc] using h2
      · simpa [restoreGo, hc] using h3
      · intro st hstep
        simp only [restoreGo, hc, Bool.false_eq_true, if_false] at hstep
        exact h4 st hstep

/-- Claim C5: restoring from a backup log moves a file only for rows
whose status is `success` and whose recorded new path exists at that
moment; a success row with a missing new path is skipped without
touching the error count (`errors` counts exactly the attempted moves
that raised), and rows of any other status are never moved. -/
theorem restore_only_success_rows (moveOk : Nat → Bool)
    (rows : List BackupRecord) (fs : FS) :
    (∀ st ∈ (restore_from_backup moveOk rows fs).steps,
      st.row.status = "success" ∧ fsExists st.fsBefore st.row.ruta_nueva = true) ∧
    (restore_from_backup moveOk rows fs).restored =
      ((restore_from_backup moveOk rows fs).steps.filter (·.ok)).length ∧
    (restore_from_backup moveOk rows fs).errors =
      ((restore_from_backup moveOk rows fs).steps.filter (fun st => !st.ok)).length :=
  ⟨(restoreGo_spec moveOk rows fs 0).2.2.2, (restoreGo_spec moveOk rows fs 0).2.1,
   (restoreGo_spec moveOk rows fs 0).2.2.1⟩

/-- Witness for C5: on a log with a success row, a failure row and a
success row whose destination is gone, only the first is moved and
nothing is counted as an error. -/
theorem restore_only_success_rows_witness :
    (restore_from_backup (fun _ => true) [rowA, rowErr, rowGone] fsAB).errors = 0 ∧
    (⟨rowA, fsAB, true⟩ : RestoreStep).row.status = "success" :=
  ⟨((restore_only_success_rows (fun _ => true) [rowA, rowErr, rowGone] fsAB).2.2).trans
    (by decide),
   ((restore_only_success_rows (fun _ => true) [rowA, rowErr, rowGone] fsAB).1
    ⟨rowA, fsAB, true⟩ (by decide)).1⟩

/-- Counterexample to C6 as stated: on a log whose success rows were
appended in the order `rowA`, `rowB` (both restorable), the first move
performed is `rowA` — the row appended first, not last. -/
theorem restore_not_reverse :
    ((restore_from_backup (fun _ => true) [rowA, rowB] fsAB).steps.map (·.row)).head? =
      some rowA ∧ rowA ≠ rowB := by decide

/-- Claim C6 (amended): restore replays the `success` records of the
backup log in the order they were appended — the performed moves form
an order-preserving subsequence of the log, and when the first appended
row is restorable it is moved back first. -/
theorem restore_forward_order (moveOk : Nat → Bool) (rows : List BackupRecord)
    (fs : FS) :
    ((restore_from_backup moveOk rows fs).steps.map (·.row)).Sublist rows ∧
    (∀ r rs, r.status = "success" → fsExists fs r.ruta_nueva = true →
      ((restore_from_backup moveOk (r :: rs) fs).steps.map (·.row)).head? = some r) := by
  refine ⟨(restoreGo_spec moveOk rows fs 0).1, ?_⟩
  intro r rs h1 h2
  have hc : (r.status == "success" && fsExists fs r.ruta_nueva) = true := by
    simp [h1, h2]
  by_cases hm : moveOk 0 = true
  · simp [restore_from_backup, restoreGo, hc, hm]
  · simp [restore_from_backup, restoreGo, hc, hm]

/-- Witness for C6 (amended), on the two-row log. -/
theorem restore_forward_order_witness :
    ((restore_from_backup (fun _ => true) [rowA, rowB] fsAB).steps.map (·.row)).head? =
      some rowA :=
  (restore_forward_order (fun _ => true) [] fsAB).2 rowA [rowB] (by decide) (by decide)

/-- Lookup distributes over filesystem concatenation. -/
theorem fsGet_append (l l' : FS) (q : String) :
    fsGet (l ++ l') q = (fsGet l q).or (fsGet l' q) := by
  unfold fsGet
  rw [List.find?_append]
  cases List.find? (·.1 == q) l <;> simp [Option.or]

/-- Removing a path makes its lookup fail. -/
theorem fsGet_fsRemove_self (fs : FS) (p : String) :
    fsGet (fsRemove fs p) p = none := by
  unfold fsGet fsRemove
  have : List.find? (·.1 == p) (fs.filter (·.1 != p)) = none := by
    rw [List.find?_eq_none]
    intro x hx
    have := (List.mem_filter.mp hx).2
    simp only [bne_iff_ne, ne_eq] at this
    simp [this]
  rw [this]
  rfl

/-- Removing one path leaves other lookups untouched. -/
theorem fsGet_fsRemove_ne (fs : FS) (p q : String) (h : q ≠ p) :
    fsGet (fsRemove fs p) q = fsGet fs q := by
  induction fs with
  | nil => rfl
  | cons a rest ih =>
    by_cases hap : (a.1 != p) = true
    · have hstep : fsRemove (a :: rest) p = a :: fsRemove rest p := by
        simp only [fsRemove, List.filter_cons, hap, if_true]
      rw [hstep]
      by_cases hq : (a.1 == q) = true
      · unfold fsGet
        rw [@List.find?_cons_of_pos _ (fun x => x.1 == q) a (fsRemove rest p) hq,
          @List.find?_cons_of_pos _ (fun x => x.1 == q) a rest hq]
      · unfold fsGet
        rw [@List.find?_cons_of_neg _ (fun x => x.1 == q) a (fsRemove rest p) hq,
          @List.find?_cons_of_neg _ (fun x => x.1 == q) a rest hq]
        exact ih
    · have hstep : fsRemove (a :: rest) p = fsRemove rest p := by
        simp only [fsRemove, List.filter_cons, hap, Bool.false_eq_true, if_false]
      have hap' : a.1 = p := by
        by_contra hne
        exact hap (bne_iff_ne.mpr hne)
      have hqa : ¬(a.1 == q) = true := by
        rw [hap']
        simp only [beq_iff_eq]
        exact fun he => h he.symm
      rw [hstep]
      unfold fsGet
      rw [@List.find?_cons_of_neg _ (fun x => x.1 == q) a rest hqa]
      exact ih

/-- The destination of a move holds the moved file. -/
theorem fsGet_fsMove_dst (fs : FS) (src dst : String) (fid : Nat)
    (h : fsGet fs src = some fid) :
    fsGet (fsMove fs src dst) dst = some fid := by
  simp only [fsMove, h]
  rw [fsGet_append, fsGet_fsRemove_self]
  simp [fsGet, List.find?, Option.or]

/-- Paths other than the source and destination are untouched by a
move. -/
theorem fsGet_fsMove_other (fs : FS) (src dst q : String)
    (h1 : q ≠ src) (h2 : q ≠ dst) :
    fsGet (fsMove fs src dst) q = fsGet fs q := by
  unfold fsMove
  cases hg : fsGet fs src with
  | none => rfl
  | some fid =>
    rw [fsGet_append, fsGet_fsRemove_ne _ _ _ h2, fsGet_fsRemove_ne _ _ _ h1]
    have hdq : (dst == q) = false := beq_eq_false_iff_ne.mpr (Ne.symm h2)
    have hq : fsGet [(dst, fid)] q = none := by
      simp [fsGet, List.find?, hdq]
    rw [hq]
    cases fsGet fs q <;> simp [Option.or]

/-- A present entry makes `fsExists` true. -/
theorem mem_fsExists (fs : FS) (p : String) (i : Nat) (h : (p, i) ∈ fs) :
    fsExists fs p = true := by
  unfold fsExists
  rw [List.any_eq_true]
  exact ⟨(p, i), h, by simp⟩

/-- A successful lookup makes `fsExists` true. -/
theorem fsGet_some_fsExists (fs : FS) (p : String) (i : Nat)
    (h : fsGet fs p = some i) : fsExists fs p = true := by
  unfold fsGet at h
  cases hf : List.find? (·.1 == p) fs with
  | none => rw [hf] at h; cases h
  | some e =>
    have he := List.mem_of_find?_eq_some hf
    have hpb := List.find?_some hf
    have hp : e.1 = p := eq_of_beq hpb
    unfold fsExists
    rw [List.any_eq_true]
    exact ⟨e, he, by simp [hp]⟩

/-- With distinct paths, every entry is what lookup returns. -/
theorem nodup_fsGet : ∀ (fs : FS), (fs.map (·.1)).Nodup →
    ∀ p i, (p, i) ∈ fs → fsGet fs p = some i := by
  intro fs
  induction fs with
  | nil => intro _ p i h; cases h
  | cons a rest ih =>
    intro hnd p i h
    have hnd' := hnd
    rw [List.map_cons, List.nodup_cons] at hnd'
    obtain ⟨hna, hndrest⟩ := hnd'
    rcases List.mem_cons.mp h with h | h
    · subst h
      unfold fsGet
      rw [@List.find?_cons_of_pos _ (fun x => x.1 == p) (p, i) rest
        (by simp : (((p, i) : String × Nat).1 == p) = true)]
      rfl
    · have hpm : p ∈ rest.map (·.1) := List.mem_map.mpr ⟨(p, i), h, rfl⟩
      have hne : ¬(a.1 == p) = true := by
        intro hb
        exact hna (eq_of_beq hb ▸ hpm)
      have hrest := ih hndrest p i h
      unfold fsGet
      rw [@List.find?_cons_of_neg _ (fun x => x.1 == p) a rest hne]
      exact hrest

/-- No file identity is lost by a move onto a fresh destination. -/
theorem mem_snd_fsMove (fs : FS) (src dst : String) (fid : Nat)
    (hnd : (fs.map (·.1)).Nodup) (hsrc : fsGet fs src = some fid)
    (hdst : fsExists fs dst = false) :
    ∀ idv ∈ fs.map (·.2), idv ∈ (fsMove fs src dst).map (·.2) := by
  intro idv hid
  obtain ⟨⟨p, j⟩, hmem, hj⟩ := List.mem_map.mp hid
  simp only at hj
  subst hj
  simp only [fsMove, hsrc]
  by_cases hp : p = src
  · subst hp
    have hj' : fsGet fs p = some j := nodup_fsGet fs hnd p j hmem
    rw [hsrc] at hj'
    have : j = fid := by injection hj'.symm
    subst this
    exact List.mem_map.mpr ⟨(dst, j), List.mem_append_right _ (by simp), rfl⟩
  · have hpd : p ≠ dst := by
      intro he
      rw [he] at hmem
      rw [mem_fsExists fs dst j hmem] at hdst
      cases hdst
    have hmem' : (p, j) ∈ fsRemove (fsRemove fs src) dst := by
      unfold fsRemove
      refine List.mem_filter.mpr ⟨List.mem_filter.mpr ⟨hmem, ?_⟩, ?_⟩
      · simpa [bne_iff_ne] using hp
      · simpa [bne_iff_ne] using hpd
    exact List.mem_map.mpr ⟨(p, j), List.mem_append_left _ hmem', rfl⟩

/-- Counterexample to C7 as stated: placing three files onto the same
destination name, the second placement parks file 2 at the
`_duplicado` name, and the third placement silently replaces it —
file 2 is gone, so repeated placement does overwrite a previously
placed file. -/
theorem third_placement_overwrites :
    ((safe_move_file (safe_move_file (safe_move_file
        [("s1", 1), ("s2", 2), ("s3", 3)] "s1" "out/m.mkv").2
        "s2" "out/m.mkv").2 "s3" "out/m.mkv").2.map (·.2)).contains 2 = false ∧
    ((safe_move_file (safe_move_file
        [("s1", 1), ("s2", 2), ("s3", 3)] "s1" "out/m.mkv").2
        "s2" "out/m.mkv").2.map (·.2)).contains 2 = true := by decide

/-- Claim C7 (amended): a move whose destination already exists places
the file under the `_duplicado` collision name instead of overwriting
the existing destination file — so a second placement to the same name
loses nothing — but the collision name is not itself deduplicated, so
only the first collision is safe (a third placement overwrites the
suffixed file, as the counterexample shows). -/
theorem safe_move_collision_suffix (fs : FS) (src dest : String) (fid gid : Nat)
    (hnd : (fs.map (·.1)).Nodup)
    (hsrc : fsGet fs src = some fid)
    (hdst : fsGet fs dest = some gid)
    (hsd : src ≠ dest)
    (hdup : fsExists fs (duplicadoName dest) = false) :
    (safe_move_file fs src dest).1 = true ∧
    fsGet (safe_move_file fs src dest).2 dest = some gid ∧
    fsGet (safe_move_file fs src dest).2 (duplicadoName dest) = some fid ∧
    ∀ idv ∈ fs.map (·.2), idv ∈ (safe_move_file fs src dest).2.map (·.2) := by
  have hexSrc : fsExists fs src = true := fsGet_some_fsExists fs src fid hsrc
  have hexDst : fsExists fs dest = true := fsGet_some_fsExists fs dest gid hdst
  have hddup : dest ≠ duplicadoName dest := by
    intro he
    rw [← he] at hdup
    rw [hexDst] at hdup
    cases hdup
  have hform : safe_move_file fs src dest =
      (true, fsMove fs src (duplicadoName dest)) := by
    simp [safe_move_file, hexSrc, hexDst, duplicadoName]
  rw [hform]
  refine ⟨rfl, ?_, ?_, ?_⟩
  · exact (fsGet_fsMove_other fs src (duplicadoName dest) dest
      (Ne.symm hsd) hddup).trans hdst
  · exact fsGet_fsMove_dst fs src (duplicadoName dest) fid hsrc
  · exact mem_snd_fsMove fs src (duplicadoName dest) fid hnd hsrc hdup

/-- Witness for C7 (amended): concrete collision where the destination
file survives and the moved file lands under the suffixed name. -/
theorem safe_move_collision_suffix_witness :
    fsGet (safe_move_file [("in/x.mkv", 10), ("out/m.mkv", 20)]
      "in/x.mkv" "out/m.mkv").2 "out/m.mkv" = some 20 ∧
    fsGet (safe_move_file [("in/x.mkv", 10), ("out/m.mkv", 20)]
      "in/x.mkv" "out/m.mkv").2 "out/m_duplicado.mkv" = some 10 := by
  have h := safe_move_collision_suffix [("in/x.mkv", 10), ("out/m.mkv", 20)]
    "in/x.mkv" "out/m.mkv" 10 20 (by decide) (by decide) (by decide)
    (by decide) (by decide)
  refine ⟨h.2.1, ?_⟩
  have h2 := h.2.2.1
  rwa [show duplicadoName "out/m.mkv" = "out/m_duplicado.mkv" by decide] at h2

/-- Counterexample to C9 as stated: an operation on a missing source
appends status `error_origen`, which is outside the specification's
status set (in particular, it is not of the form `error:<msg>`). -/
theorem status_vocabulary_gap :
    (process_file_operation [] "/in/a.mkv" unmatchedResult "out").1.status =
      "error_origen" ∧ ¬ specStatusSet "error_origen" := by
  refine ⟨rfl, ?_⟩
  intro h
  rcases h with h | h | h | h | ⟨m, hm⟩
  · exact absurd h (by decide)
  · exact absurd h (by decide)
  · exact absurd h (by decide)
  · exact absurd h (by decide)
  · have h5 : "error_origen".data[5]? = ("error:" ++ m).data[5]? := by
      rw [← hm]
    rw [String.data_append, List.getElem?_append_left (by decide)] at h5
    exact absurd h5 (by decide)

/-- Claim C9 (amended): every backup row any operation writes has a
status in the set the code uses — `success`, `error_origen`,
`error_mover`, `no_action`, or `error: <msg>`. -/
theorem backup_status_set :
    (∀ (fs : FS) (src : String) (res : ProcResult) (outDir : String)
      (exn : Option String) (mOk : Bool),
      codeStatusSet (process_file_operation fs src res outDir exn mOk).1.status) ∧
    (∀ v, codeStatusSet (no_action_record v).status) := by
  constructor
  · intro fs src res outDir exn mOk
    unfold process_file_operation codeStatusSet
    split
    · exact Or.inr (Or.inl rfl)
    · split
      · exact Or.inr (Or.inr (Or.inr (Or.inr ⟨_, rfl⟩)))
      · dsimp only
        split
        · exact Or.inl rfl
        · exact Or.inr (Or.inr (Or.inl rfl))
  · intro v
    exact Or.inr (Or.inr (Or.inr (Or.inl rfl)))

/-- Membership in the accumulator-threaded distinct list. -/
theorem mem_distinct_aux (l : List Nat) :
    ∀ (acc : List Nat) (x : Nat),
      x ∈ l.foldl (fun acc x => if x ∈ acc then acc else acc ++ [x]) acc ↔
        x ∈ acc ∨ x ∈ l := by
  induction l with
  | nil => intro acc x; simp
  | cons y l ih =>
    intro acc x
    simp only [List.foldl_cons]
    by_cases hy : y ∈ acc
    · rw [if_pos hy, ih]
      constructor
      · rintro (h | h)
        · exact Or.inl h
        · exact Or.inr (List.mem_cons.mpr (Or.inr h))
      · rintro (h | h)
        · exact Or.inl h
        · rcases List.mem_cons.mp h with h | h
          · exact Or.inl (h ▸ hy)
          · exact Or.inr h
    · rw [if_neg hy, ih]
      constructor
      · rintro (h | h)
        · rcases List.mem_append.mp h with h | h
          · exact Or.inl h
          · exact Or.inr (List.mem_cons.mpr (Or.inl (List.mem_singleton.mp h)))
        · exact Or.inr (List.mem_cons.mpr (Or.inr h))
      · rintro (h | h)
        · exact Or.inl (List.mem_append.mpr (Or.inl h))
        · rcases List.mem_cons.mp h with h | h
          · exact Or.inl (List.mem_append.mpr (Or.inr (h ▸ List.mem_singleton_self x)))
          · exact Or.inr h

/-- `distinctInOrder` has exactly the members of the list. -/
theorem mem_distinctInOrder (l : List Nat) (x : Nat) :
    x ∈ distinctInOrder l ↔ x ∈ l := by
  unfold distinctInOrder
  rw [mem_distinct_aux]
  simp

/-- Invariant of the best-count fold behind `mostCommonHead`. -/
theorem foldl_best_spec (l : List Nat) (ds : List Nat) :
    ∀ (b : Nat × Nat), b.2 = l.count b.1 →
      (ds.foldl (fun best x => if l.count x > best.2 then (x, l.count x) else best) b).2 =
        l.count (ds.foldl (fun best x => if l.count x > best.2 then (x, l.count x) else best) b).1 ∧
      ((ds.foldl (fun best x => if l.count x > best.2 then (x, l.count x) else best) b) = b ∨
        (ds.foldl (fun best x => if l.count x > best.2 then (x, l.count x) else best) b).1 ∈ ds) ∧
      b.2 ≤ (ds.foldl (fun best x => if l.count x > best.2 then (x, l.count x) else best) b).2 ∧
      ∀ x ∈ ds, l.count x ≤
        (ds.foldl (fun best x => if l.count x > best.2 then (x, l.count x) else best) b).2 := by
  induction ds with
  | nil => intro b hb; simp [hb]
  | cons y ds ih =>
    intro b hb
    simp only [List.foldl_cons]
    by_cases hy : l.count y > b.2
    · obtain ⟨h1, h2, h3, h4⟩ := ih (y, l.count y) rfl
      rw [if_pos hy]
      refine ⟨h1, ?_, le_trans (le_of_lt hy) h3, ?_⟩
      · rcases h2 with h | h
        · exact Or.inr (by rw [h]; exact List.mem_cons_self y ds)
        · exact Or.inr (List.mem_cons.mpr (Or.inr h))
      · intro x hx
        rcases List.mem_cons.mp hx with h | h
        · exact h ▸ h3
        · exact h4 x h
    · obtain ⟨h1, h2, h3, h4⟩ := ih b hb
      rw [if_neg hy]
      refine ⟨h1, ?_, h3, ?_⟩
      · rcases h2 with h | h
        · exact Or.inl h
        · exact Or.inr (List.mem_cons.mpr (Or.inr h))
      · intro x hx
        rcases List.mem_cons.mp hx with h | h
        · exact h ▸ le_trans (le_of_not_lt hy) h3
        · exact h4 x h

/-- What `Counter.most_common()[0]` guarantees: the returned id occurs
in the list with the returned frequency, and no id occurs more often. -/
theorem mostCommonHead_spec (l : List Nat) (bid freq : Nat)
    (h : mostCommonHead l = some (bid, freq)) :
    bid ∈ l ∧ freq = l.count bid ∧ ∀ x ∈ l, l.count x ≤ freq := by
  unfold mostCommonHead at h
  cases hd : distinctInOrder l with
  | nil => rw [hd] at h; cases h
  | cons d ds =>
    rw [hd] at h
    have hb := foldl_best_spec l ds (d, l.count d) rfl
    obtain ⟨h1, h2, h3, h4⟩ := hb
    have hbid : (bid, freq) =
        ds.foldl (fun best x => if l.count x > best.2 then (x, l.count x) else best)
          (d, l.count d) := by
      injection h with h'; exact h'.symm
    refine ⟨?_, ?_, ?_⟩
    · rcases h2 with he | he
      · have : bid = d := by rw [← hbid] at he; exact congrArg Prod.fst he
        rw [this, ← mem_distinctInOrder, hd]
        exact List.mem_cons_self d ds
      · rw [← hbid] at he
        rw [← mem_distinctInOrder, hd]
        exact List.mem_cons.mpr (Or.inr he)
    · have hb1 := congrArg Prod.fst hbid
      have hb2 := congrArg Prod.snd hbid
      simp only at hb1 hb2
      rw [hb1, hb2]
      exact h1
    · intro x hx
      have hxd : x ∈ distinctInOrder l := (mem_distinctInOrder l x).mpr hx
      rw [hd] at hxd
      rcases List.mem_cons.mp hxd with he | he
      · subst he
        calc l.count x ≤ _ := h3
        _ = freq := (congrArg Prod.snd hbid).symm
      · calc l.count x ≤ _ := h4 x he
        _ = freq := (congrArg Prod.snd hbid).symm

/-- A credited id always has a last cast entry. -/
theorem lastWithId_isSome (items : List TmdbItem) (i : Nat)
    (h : i ∈ items.map (·.id)) : (lastWithId items i).isSome = true := by
  obtain ⟨it, hmem, hid⟩ := List.mem_map.mp h
  unfold lastWithId
  rw [List.find?_isSome]
  exact ⟨it, List.mem_reverse.mpr hmem, by simp [hid]⟩

/-- Claim C2: with resolved actor ids, the most frequently credited
title is returned exactly when its frequency reaches
`min(2, number_of_actors)`; the frequency really is the maximal count
across the actors' credit lists. -/
theorem actor_cross_reference_threshold
    (o : TmdbOracle) (actors : List String) (isSeries : Bool)
    (ids : List Nat) (items : List TmdbItem) (bid freq : Nat)
    (hact : actors ≠ [])
    (hres : resolveActorIds o actors [] = .ok ids)
    (hids : ids ≠ [])
    (hcast : collectCast o isSeries ids [] = .ok items)
    (hmc : mostCommonHead (items.map (·.id)) = some (bid, freq)) :
    ((search_by_actors o actors isSeries).isSome = true ↔ freq ≥ min 2 ids.length) ∧
    (freq ≥ min 2 ids.length →
      search_by_actors o actors isSeries = lastWithId items bid) ∧
    (∀ x ∈ items.map (·.id), (items.map (·.id)).count x ≤ freq) := by
  have hae : actors.isEmpty = false := by
    cases actors with
    | nil => exact absurd rfl hact
    | cons a l => rfl
  have hie : ids.isEmpty = false := by
    cases ids with
    | nil => exact absurd rfl hids
    | cons a l => rfl
  have hform : search_by_actors o actors isSeries =
      if freq ≥ min 2 ids.length then lastWithId items bid else none := by
    unfold search_by_actors
    rw [hae]
    simp only [Bool.false_eq_true, if_false, hres, hie, hcast, hmc]
  obtain ⟨hmem, hcount, hmax⟩ := mostCommonHead_spec _ _ _ hmc
  refine ⟨?_, ?_, hmax⟩
  · rw [hform]
    by_cases hf : freq ≥ min 2 ids.length
    · rw [if_pos hf]
      simp only [hf, iff_true]
      exact lastWithId_isSome items bid hmem
    · rw [if_neg hf]
      simp [hf]
  · intro hf
    rw [hform, if_pos hf]

/-- Witness for C2: three actors sharing title 77 in two credit lists
accept it; three actors with pairwise disjoint credit lists yield no
result. -/
theorem actor_cross_reference_threshold_witness :
    search_by_actors actorsOracle ["A1", "A2", "A3"] false =
      some ⟨77, some "T2", none, none, none, some 2⟩ ∧
    search_by_actors actorsOracle ["B1", "B2", "B3"] false = none := by
  constructor
  · have h := actor_cross_reference_threshold actorsOracle ["A1", "A2", "A3"] false
      [101, 102, 103] (castA1 ++ (castA2 ++ castA3)) 77 2 (by decide) rfl
      (by decide) rfl rfl
    have h2 := h.2.1 (by decide)
    exact h2.trans (by rfl)
  · have h := actor_cross_reference_threshold actorsOracle ["B1", "B2", "B3"] false
      [201, 202, 203]
      [⟨11, none, none, none, none, none⟩, ⟨12, none, none, none, none, none⟩,
       ⟨13, none, none, none, none, none⟩] 11 1 (by decide) rfl
      (by decide) rfl rfl
    refine Option.not_isSome_iff_eq_none.mp ?_
    intro hs
    exact absurd (h.1.mp hs) (by decide)

/-- Python `max` keeps the current element unless a later one is
strictly larger: the fold's result is in the list (or is the seed) and
dominates every element. -/
theorem maxBySnd_fold_spec (ms : List (String × ℚ)) :
    ∀ (m : String × ℚ),
      ((ms.foldl (fun best x => if x.2 > best.2 then x else best) m) = m ∨
        (ms.foldl (fun best x => if x.2 > best.2 then x else best) m) ∈ ms) ∧
      m.2 ≤ (ms.foldl (fun best x => if x.2 > best.2 then x else best) m).2 ∧
      ∀ x ∈ ms, x.2 ≤ (ms.foldl (fun best x => if x.2 > best.2 then x else best) m).2 := by
  induction ms with
  | nil => intro m; simp
  | cons y ms ih =>
    intro m
    simp only [List.foldl_cons]
    by_cases hy : y.2 > m.2
    · obtain ⟨h1, h2, h3⟩ := ih y
      rw [if_pos hy]
      refine ⟨?_, le_trans (le_of_lt hy) h2, ?_⟩
      · rcases h1 with h | h
        · exact Or.inr (by rw [h]; exact List.mem_cons_self y ms)
        · exact Or.inr (List.mem_cons.mpr (Or.inr h))
      · intro x hx
        rcases List.mem_cons.mp hx with h | h
        · exact h ▸ h2
        · exact h3 x h
    · obtain ⟨h1, h2, h3⟩ := ih m
      rw [if_neg hy]
      refine ⟨?_, h2, ?_⟩
      · rcases h1 with h | h
        · exact Or.inl h
        · exact Or.inr (List.mem_cons.mpr (Or.inr h))
      · intro x hx
        rcases List.mem_cons.mp hx with h | h
        · exact h ▸ le_trans (le_of_not_lt hy) h2
        · exact h3 x h

/-- A rational floor bound transported to `Nat`. -/
theorem floor_toNat_le (x : ℚ) (n : Nat) (h : x ≤ (n : ℚ)) :
    x.floor.toNat ≤ n := by
  rw [Int.toNat_le]
  by_contra hlt
  push_neg at hlt
  have h1 : ((n : ℤ) + 1) ≤ x.floor := hlt
  have h2 : (((n : ℤ) + 1 : ℤ) : ℚ) ≤ x := Rat.le_floor.mp h1
  have h3 : ((n : ℚ) + 1) ≤ (n : ℚ) := by
    push_cast at h2
    linarith
  linarith

/-- What one accepted entry of the logo loop guarantees: the studio is
the file entry of the logo and the score reached the threshold. -/
theorem logoEntry_some (o : LogoOracle) (image : ImgShape) (threshold : ℚ)
    (lf : LogoFile) (st : String) (sc : ℚ)
    (h : logoEntry o image threshold lf = some (st, sc)) :
    st = lf.studio ∧ threshold ≤ sc := by
  unfold logoEntry at h
  rcases himg : lf.img with _ | li
  · rw [himg] at h; exact Option.noConfusion h
  · rw [himg] at h
    simp only at h
    split at h
    · split at h
      · exact Option.noConfusion h
      · split at h
        · rename_i hge
          obtain pe := Option.some.inj h
          rw [Prod.mk.injEq] at pe
          exact ⟨pe.1.symm, ge_iff_le.mp (pe.2 ▸ hge)⟩
        · exact Option.noConfusion h
    · split at h
      · rename_i hge
        obtain pe := Option.some.inj h
        rw [Prod.mk.injEq] at pe
        exact ⟨pe.1.symm, ge_iff_le.mp (pe.2 ▸ hge)⟩
      · exact Option.noConfusion h

/-- Claim C4: the logo detector accepts a match exactly when its
normalized cross-correlation score reaches the threshold; a logo larger
than the frame is scored at its aspect-preserving `0.8`-scaled resize,
which always fits; and among the accepted matches the returned studio
is one of maximal score. -/
theorem logo_detector_best_match (o : LogoOracle) (image : ImgShape)
    (logoFiles : List LogoFile) (threshold : ℚ) :
    (∀ m ∈ logoMatches o image logoFiles threshold, threshold ≤ m.2) ∧
    (∀ lf ∈ logoFiles, ∀ li, lf.img = some li → tooLarge image li = false →
      threshold ≤ o.score lf.path li →
      (lf.studio, o.score lf.path li) ∈ logoMatches o image logoFiles threshold) ∧
    (∀ li : ImgShape, 0 < li.h → 0 < li.w →
      resizeLogo image li =
        ⟨((li.h : ℚ) * (min ((image.h : ℚ) / (li.h : ℚ)) ((image.w : ℚ) / (li.w : ℚ)) *
            (4 / 5))).floor.toNat,
         ((li.w : ℚ) * (min ((image.h : ℚ) / (li.h : ℚ)) ((image.w : ℚ) / (li.w : ℚ)) *
            (4 / 5))).floor.toNat⟩ ∧
      tooLarge image (resizeLogo image li) = false) ∧
    (∀ m ms, logoMatches o image logoFiles threshold = m :: ms →
      ∃ best, (best = m ∨ best ∈ ms) ∧
        detect_studio_from_logo o image logoFiles threshold = some best.1 ∧
        ∀ x ∈ m :: ms, x.2 ≤ best.2) := by
  refine ⟨?_, ?_, ?_, ?_⟩
  · intro m hm
    obtain ⟨lf, _, hf⟩ := List.mem_filterMap.mp hm
    exact (logoEntry_some o image threshold lf m.1 m.2 hf).2
  · intro lf hlf li hli hfit hsc
    refine List.mem_filterMap.mpr ⟨lf, hlf, ?_⟩
    unfold logoEntry
    rw [hli]
    have hfit' : ¬ (tooLarge image li = true) := by
      rw [hfit]; exact Bool.false_ne_true
    simp only [if_neg hfit', ge_iff_le, if_pos hsc]
  · intro li hh hw
    constructor
    · rfl
    · have hwpos : (0 : ℚ) < (li.w : ℚ) := by exact_mod_cast hw
      have hhpos : (0 : ℚ) < (li.h : ℚ) := by exact_mod_cast hh
      have hs1 : min ((image.h : ℚ) / (li.h : ℚ)) ((image.w : ℚ) / (li.w : ℚ)) * (4 / 5) ≤
          (image.h : ℚ) / (li.h : ℚ) := by
        calc min ((image.h : ℚ) / (li.h : ℚ)) ((image.w : ℚ) / (li.w : ℚ)) * (4 / 5) ≤
            ((image.h : ℚ) / (li.h : ℚ)) * (4 / 5) := by
              apply mul_le_mul_of_nonneg_right (min_le_left _ _)
              norm_num
        _ ≤ ((image.h : ℚ) / (li.h : ℚ)) * 1 := by
              apply mul_le_mul_of_nonneg_left (by norm_num)
              positivity
        _ = (image.h : ℚ) / (li.h : ℚ) := mul_one _
      have hs2 : min ((image.h : ℚ) / (li.h : ℚ)) ((image.w : ℚ) / (li.w : ℚ)) * (4 / 5) ≤
          (image.w : ℚ) / (li.w : ℚ) := by
        calc min ((image.h : ℚ) / (li.h : ℚ)) ((image.w : ℚ) / (li.w : ℚ)) * (4 / 5) ≤
            ((image.w : ℚ) / (li.w : ℚ)) * (4 / 5) := by
              apply mul_le_mul_of_nonneg_right (min_le_right _ _)
              norm_num
        _ ≤ ((image.w : ℚ) / (li.w : ℚ)) * 1 := by
              apply mul_le_mul_of_nonneg_left (by norm_num)
              positivity
        _ = (image.w : ℚ) / (li.w : ℚ) := mul_one _
      have hhb : (li.h : ℚ) *
          (min ((image.h : ℚ) / (li.h : ℚ)) ((image.w : ℚ) / (li.w : ℚ)) * (4 / 5)) ≤
          (image.h : ℚ) := by
        calc (li.h : ℚ) * _ ≤ (li.h : ℚ) * ((image.h : ℚ) / (li.h : ℚ)) :=
              mul_le_mul_of_nonneg_left hs1 (le_of_lt hhpos)
        _ = (image.h : ℚ) := by field_simp
      have hwb : (li.w : ℚ) *
          (min ((image.h : ℚ) / (li.h : ℚ)) ((image.w : ℚ) / (li.w : ℚ)) * (4 / 5)) ≤
          (image.w : ℚ) := by
        calc (li.w : ℚ) * _ ≤ (li.w : ℚ) * ((image.w : ℚ) / (li.w : ℚ)) :=
              mul_le_mul_of_nonneg_left hs2 (le_of_lt hwpos)
        _ = (image.w : ℚ) := by field_simp
      unfold tooLarge resizeLogo
      simp only [Bool.or_eq_false_iff, decide_eq_false_iff_not, not_lt]
      constructor
      · exact floor_toNat_le _ _ hhb
      · exact floor_toNat_le _ _ hwb
  · intro m ms hmatch
    have hne : logoFiles.isEmpty = false := by
      cases hlf : logoFiles with
      | nil => rw [hlf] at hmatch; cases hmatch
      | cons a l => rfl
    obtain ⟨h1, h2, h3⟩ := maxBySnd_fold_spec ms m
    refine ⟨ms.foldl (fun best x => if x.2 > best.2 then x else best) m, h1, ?_, ?_⟩
    · unfold detect_studio_from_logo
      rw [hne]
      simp only [Bool.false_eq_true, if_false, hmatch]
      rfl
    · intro x hx
      rcases List.mem_cons.mp hx with h | h
      · exact h ▸ h2
      · exact h3 x h

/-- Witness for C4: of two accepted candidates with scores 0.9 and 0.8,
the detector returns the higher-scoring studio. -/
theorem logo_detector_best_match_witness :
    ((7 : ℚ) / 10 ≤ 9 / 10) ∧
    detect_studio_from_logo logoOracleFix ⟨100, 100⟩ logoFilesFix = some "FOX" := by
  have hlist : logoMatches logoOracleFix ⟨100, 100⟩ logoFilesFix (7 / 10) =
      [("FOX", 9 / 10), ("HBO", 8 / 10)] := by
    rw [logoMatches, logoFilesFix]
    rw [List.filterMap_cons, List.filterMap_cons, List.filterMap_nil]
    rw [show logoEntry logoOracleFix ⟨100, 100⟩ (7 / 10) ⟨"FOX", "l1", some ⟨50, 50⟩⟩ =
      some ("FOX", 9 / 10) by
        simp [logoEntry, logoOracleFix, tooLarge]
        norm_num]
    rw [show logoEntry logoOracleFix ⟨100, 100⟩ (7 / 10) ⟨"HBO", "l2", some ⟨60, 60⟩⟩ =
      some ("HBO", 8 / 10) by
        simp [logoEntry, logoOracleFix, tooLarge]
        norm_num]
  have h := logo_detector_best_match logoOracleFix ⟨100, 100⟩ logoFilesFix (7 / 10)
  constructor
  · exact h.1 ("FOX", (9 : ℚ) / 10) (by rw [hlist]; exact List.mem_cons_self _ _)
  · obtain ⟨best, hb, hdet, hle⟩ := h.2.2.2 ("FOX", (9 : ℚ) / 10)
      [("HBO", (8 : ℚ) / 10)] hlist
    rcases hb with hb | hb
    · rw [hb] at hdet
      exact hdet
    · rw [List.mem_singleton] at hb
      have h910 := hle ("FOX", (9 : ℚ) / 10) (List.mem_cons_self _ _)
      rw [hb] at h910
      exact absurd h910 (by norm_num)

/-- The movie/series query pair of one textual source collapses to
`tryBothKinds`. -/
theorem findSome?_queryPair (o : TmdbOracle) (cfg : Config) (q : String) :
    ([(q, false), (q, true)].findSome? fun qb =>
      (search_tmdb_multilang o qb.1 cfg qb.2).map fun r => (r, !qb.2)) =
    tryBothKinds o cfg q := by
  simp only [List.findSome?_cons, List.findSome?_nil]
  unfold tryBothKinds
  cases search_tmdb_multilang o q cfg false <;>
    cases search_tmdb_multilang o q cfg true <;> simp

/-- Flattening each source into its movie/series query pair preserves
the first hit. -/
theorem findSome?_pairs_flatMap (o : TmdbOracle) (cfg : Config)
    (l : List String) :
    ((l.flatMap fun f => [(f, false), (f, true)]).findSome? fun qb =>
      (search_tmdb_multilang o qb.1 cfg qb.2).map fun r => (r, !qb.2)) =
    l.findSome? (tryBothKinds o cfg) := by
  induction l with
  | nil => rfl
  | cons f l ih =>
    rw [List.flatMap_cons, List.findSome?_append, ih, findSome?_queryPair,
      List.findSome?_cons]
    cases tryBothKinds o cfg f <;> simp [Option.or]

/-- `findSome?` over a guarded list. -/
theorem if_findSome? {α β : Type} (c : Prop) [Decidable c] (l : List α)
    (g : α → Option β) :
    (if c then l else []).findSome? g = if c then l.findSome? g else none := by
  split <;> simp

/-- The nested early-exit chain of `process_single_video` equals the
flat first-hit scan over the ordered source list of the specification. -/
theorem chain_code_eq_spec (env : Env) (cfg : Config) (c : String) :
    chainCode env cfg c = chainSpec env cfg c := by
  unfold chainCode chainSpec specQueries tryActorsBothKinds
  rw [List.findSome?_append, List.findSome?_append, findSome?_queryPair,
    if_findSome?, if_findSome?, findSome?_pairs_flatMap, findSome?_pairs_flatMap]
  cases h1 : tryBothKinds env.tmdb cfg c
  · cases h2 : (if env.ocrText ≠ "" then
        (ocrFragments env.ocrText).findSome? (tryBothKinds env.tmdb cfg) else none)
    · cases h3 : (if env.subtitlesText ≠ "" then
          (subtitleQueries env.subtitlesText).findSome? (tryBothKinds env.tmdb cfg)
        else none)
      · simp [h1, h2, h3, Option.or]
      · simp [h1, h2, h3, Option.or]
    · simp [h1, h2, Option.or]
  · simp [h1, Option.or]

/-- Claim C1: the evidence sources are tried in exactly the specified
order with the first acceptance terminating the chain (the code chain
equals the flat ordered scan); the OCR stage uses at most 5 fragments,
each longer than 15 characters; the subtitle stage uses at most 5
blocks; and an unmatched result still carries the detected studios and
actors. -/
theorem identification_chain_order (env : Env) (cfg : Config) :
    (∀ c, chainCode env cfg c = chainSpec env cfg c) ∧
    (∀ t, (ocrFragments t).length ≤ 5 ∧ ∀ f ∈ ocrFragments t, 15 < f.length) ∧
    (∀ t, (subtitleQueries t).length ≤ 5) ∧
    (∀ fp, env.fileValid = true →
      (process_single_video env cfg fp).identificado = false →
      (process_single_video env cfg fp).detectedStudios = detectedStudios env cfg ∧
      (process_single_video env cfg fp).detectedActors = detectedActors env cfg ∧
      (process_single_video env cfg fp).mensaje = some "No se pudo identificar") := by
  refine ⟨fun c => chain_code_eq_spec env cfg c, ?_, ?_, ?_⟩
  · intro t
    constructor
    · unfold ocrFragments
      exact List.length_take_le _ _
    · intro f hf
      unfold ocrFragments at hf
      obtain ⟨l', _, hsome⟩ := List.mem_filterMap.mp (List.take_subset _ _ hf)
      dsimp only at hsome
      split at hsome
      · rename_i h15
        obtain he := Option.some.inj hsome
        exact he ▸ h15
      · exact Option.noConfusion hsome
  · intro t
    unfold subtitleQueries
    calc (((t.splitOn "\n\n").take 5).filterMap _).length ≤
        ((t.splitOn "\n\n").take 5).length := List.length_filterMap_le _ _
    _ ≤ 5 := List.length_take_le _ _
  · intro fp hv hunm
    unfold process_single_video at hunm ⊢
    rw [hv] at hunm ⊢
    simp only [Bool.not_true, Bool.false_eq_true, if_false] at hunm ⊢
    cases hch : chainCode env cfg (clean_filename (pyBasename fp)) with
    | some x =>
      obtain ⟨item, isMovie⟩ := x
      simp only [hch] at hunm
      exact absurd hunm (by decide)
    | none =>
      simp only [hch] at hunm ⊢
      exact ⟨trivial, trivial, trivial⟩

/-- Witness for C1: with an always-failing oracle the unmatched result
still reports the detected studio and actor. -/
theorem identification_chain_order_witness :
    (process_single_video exnEnv cfgFix "/videos/x.mkv").detectedStudios = ["FOX"] ∧
    (process_single_video exnEnv cfgFix "/videos/x.mkv").detectedActors =
      ["Actor A"] := by
  have h := (identification_chain_order exnEnv cfgFix).2.2.2 "/videos/x.mkv"
    rfl (by decide)
  exact ⟨h.1.trans (by decide), h.2.1.trans (by decide)⟩

/-- A raised search request makes the whole language pass an
exception. -/
theorem langStep_exn (o : TmdbOracle) (q ol : String) (isS : Bool)
    (lang : String) (att : Nat) (b : Option TmdbItem)
    (h : o.search isS q lang att = .exn) :
    langStep o q ol isS lang att b = .exn 1 := by
  unfold langStep
  rw [h]

/-- A language pass issues at most two HTTP requests. -/
theorem langStep_calls (o : TmdbOracle) (q ol : String) (isS : Bool)
    (lang : String) (att : Nat) (b : Option TmdbItem) :
    (match langStep o q ol isS lang att b with
     | .ok _ n => n
     | .exn n => n) ≤ 2 := by
  unfold langStep
  cases hsr : o.search isS q lang att with
  | exn => simp
  | http code results =>
    by_cases hc : code = 200
    · cases results with
      | nil => simp [hc]
      | cons r rs =>
        simp only [hc, if_true]
        by_cases hb : (b.all fun x => pop r > pop x) = true
        · simp only [hb, if_true]
          by_cases hl : ¬lang = "en" ∧ ol = "en"
          · simp only [hl, if_true]
            cases hd : o.detail isS r.id att with
            | exn => simp [hl.1]
            | http dcode ditem => simp [hl.1]
          · simp [hl]
        · simp [hb]
    · simp [hc]

/-- The no-retry run issues at most four requests. -/
theorem searchNoRetry_calls (o : TmdbOracle) (q ol : String) (isS : Bool)
    (att : Nat) : (searchNoRetry o q ol isS att).2 ≤ 4 := by
  unfold searchNoRetry
  have h1 := langStep_calls o q ol isS "es" att none
  cases hes : langStep o q ol isS "es" att none with
  | ok b c1 =>
    have h1' : c1 ≤ 2 := by rw [hes] at h1; exact h1
    have h2 := langStep_calls o q ol isS "en" att b
    cases hen : langStep o q ol isS "en" att b with
    | ok b2 c2 =>
      have h2' : c2 ≤ 2 := by rw [hen] at h2; exact h2
      simp only [hes, hen]
      omega
    | exn c2 =>
      have h2' : c2 ≤ 2 := by rw [hen] at h2; exact h2
      simp only [hes, hen]
      omega
  | exn c1 =>
    have h1' : c1 ≤ 2 := by rw [hes] at h1; exact h1
    have h2 := langStep_calls o q ol isS "en" att none
    cases hen : langStep o q ol isS "en" att none with
    | ok b2 c2 =>
      have h2' : c2 ≤ 2 := by rw [hen] at h2; exact h2
      simp only [hes, hen]
      omega
    | exn c2 =>
      have h2' : c2 ≤ 2 := by rw [hen] at h2; exact h2
      simp only [hes, hen]
      omega

/-- The retry loop issues at most `4 * attempts` requests in total. -/
theorem searchCore_calls (o : TmdbOracle) (q ol : String) (isS : Bool) :
    ∀ n, (searchCore o q ol isS n).2 ≤ 4 * max n 1 := by
  intro n
  induction n using Nat.strong_induction_on with
  | _ n ih =>
    rcases n with _ | (_ | m)
    · simpa using searchNoRetry_calls o q ol isS 0
    · simpa using searchNoRetry_calls o q ol isS 1
    · have hrec := ih (m + 1) (by omega)
      unfold searchCore
      have h1 := langStep_calls o q ol isS "es" (m + 2) none
      cases hes : langStep o q ol isS "es" (m + 2) none with
      | ok b c1 =>
        have h1' : c1 ≤ 2 := by rw [hes] at h1; exact h1
        have h2 := langStep_calls o q ol isS "en" (m + 2) b
        cases hen : langStep o q ol isS "en" (m + 2) b with
        | ok b2 c2 =>
          have h2' : c2 ≤ 2 := by rw [hen] at h2; exact h2
          simp only [hes, hen]
          omega
        | exn c2 =>
          have h2' : c2 ≤ 2 := by rw [hen] at h2; exact h2
          rcases hr : searchCore o q ol isS (m + 1) with ⟨r, c3⟩
          have hrec' : c3 ≤ 4 * ((m + 1) ⊔ 1) := by rw [hr] at hrec; exact hrec
          simp only [hes, hen, hr]
          have hm1 : (m + 1) ⊔ 1 = m + 1 := by omega
          have hm2 : (m + 2) ⊔ 1 = m + 2 := by omega
          rw [hm1] at hrec'
          rw [hm2]
          omega
      | exn c1 =>
        have h1' : c1 ≤ 2 := by rw [hes] at h1; exact h1
        rcases hr : searchCore o q ol isS (m + 1) with ⟨r, c3⟩
        have hrec' : c3 ≤ 4 * ((m + 1) ⊔ 1) := by rw [hr] at hrec; exact hrec
        simp only [hes, hr]
        have hm1 : (m + 1) ⊔ 1 = m + 1 := by omega
        have hm2 : (m + 2) ⊔ 1 = m + 2 := by omega
        rw [hm1] at hrec'
        rw [hm2]
        omega

/-- When every search request for a query raises, the multilang search
returns no result (after its bounded retries). -/
theorem searchCore_exn_none (o : TmdbOracle) (q ol : String) (isS : Bool)
    (hexn : ∀ lang att, o.search isS q lang att = .exn) :
    ∀ n, (searchCore o q ol isS n).1 = none := by
  intro n
  induction n using Nat.strong_induction_on with
  | _ n ih =>
    rcases n with _ | (_ | m)
    · unfold searchCore searchNoRetry
      rw [langStep_exn o q ol isS "es" 0 none (hexn "es" 0),
        langStep_exn o q ol isS "en" 0 none (hexn "en" 0)]
    · unfold searchCore searchNoRetry
      rw [langStep_exn o q ol isS "es" 1 none (hexn "es" 1),
        langStep_exn o q ol isS "en" 1 none (hexn "en" 1)]
    · have hrec := ih (m + 1) (by omega)
      unfold searchCore
      rw [langStep_exn o q ol isS "es" (m + 2) none (hexn "es" (m + 2))]
      rcases hr : searchCore o q ol isS (m + 1) with ⟨r, c3⟩
      rw [hr] at hrec
      simp only [hr] at hrec ⊢
      exact hrec

/-- When every person search raises, the actor cross-reference returns
no result. -/
theorem search_by_actors_person_exn (o : TmdbOracle) (actors : List String)
    (isS : Bool) (h : ∀ a, o.person a = .exn) :
    search_by_actors o actors isS = none := by
  unfold search_by_actors
  cases actors with
  | nil => rfl
  | cons a rest =>
    have hres : resolveActorIds o (a :: rest) [] = .error () := by
      unfold resolveActorIds
      rw [h a]
    simp [hres]

/-- Claim C8: every metadata query is retried a bounded number of times
(at most `4 * attempts` HTTP requests per search call); a query whose
requests all raise simply yields no result; abandoning the
cleaned-filename queries hands over to the rest of the chain; and even
when every request of every source raises, the pipeline still returns
the unmatched result object carrying the detections — errors never
escape. -/
theorem query_errors_bounded_and_isolated :
    (∀ (o : TmdbOracle) (q ol : String) (isS : Bool) (n : Nat),
      (searchCore o q ol isS n).2 ≤ 4 * max n 1) ∧
    (∀ (o : TmdbOracle) (q : String) (cfg : Config) (isS : Bool) (n : Nat),
      (∀ lang att, o.search isS q lang att = .exn) →
      search_tmdb_multilang o q cfg isS n = none) ∧
    (∀ env cfg c, tryBothKinds env.tmdb cfg c = none →
      chainCode env cfg c = chainRest env cfg) ∧
    (∀ env cfg fp, env.fileValid = true →
      (∀ isS q lang att, env.tmdb.search isS q lang att = .exn) →
      (∀ a, env.tmdb.person a = .exn) →
      process_single_video env cfg fp =
        { identificado := false, esPelicula := none, info := none,
          quality := some env.quality, season := none, episode := none,
          detectedStudios := detectedStudios env cfg,
          detectedActors := detectedActors env cfg,
          mensaje := some "No se pudo identificar" }) := by
  refine ⟨searchCore_calls, ?_, ?_, ?_⟩
  · intro o q cfg isS n hexn
    exact searchCore_exn_none o q cfg.outputLanguage isS hexn n
  · intro env cfg c h
    unfold chainCode chainRest
    rw [h]
  · intro env cfg fp hv hexn hpexn
    have hboth : ∀ q, tryBothKinds env.tmdb cfg q = none := by
      intro q
      unfold tryBothKinds
      rw [show search_tmdb_multilang env.tmdb q cfg false = none from
        searchCore_exn_none env.tmdb q cfg.outputLanguage false (hexn false q) 3]
      rw [show search_tmdb_multilang env.tmdb q cfg true = none from
        searchCore_exn_none env.tmdb q cfg.outputLanguage true (hexn true q) 3]
      rfl
    have hchain : chainCode env cfg (clean_filename (pyBasename fp)) = none := by
      unfold chainCode tryActorsBothKinds
      rw [hboth]
      rw [show ((ocrFragments env.ocrText).findSome? (tryBothKinds env.tmdb cfg)) =
        none from List.findSome?_eq_none_iff.mpr fun x _ => hboth x]
      rw [show ((subtitleQueries env.subtitlesText).findSome?
          (tryBothKinds env.tmdb cfg)) = none from
        List.findSome?_eq_none_iff.mpr fun x _ => hboth x]
      rw [search_by_actors_person_exn env.tmdb (detectedActors env cfg) false hpexn,
        search_by_actors_person_exn env.tmdb (detectedActors env cfg) true hpexn]
      simp
    unfold process_single_video
    rw [hv]
    simp only [Bool.not_true, Bool.false_eq_true, if_false]
    simp only [hchain]

/-- Witness for C8: twelve requests bound three attempts, and the
always-raising environment yields the unmatched record with its
detections. -/
theorem query_errors_bounded_and_isolated_witness :
    (searchCore allExnOracle "q" "es" false 3).2 ≤ 12 ∧
    process_single_video exnEnv cfgFix "/videos/x.mkv" =
      { identificado := false, esPelicula := none, info := none,
        quality := some "720p", season := none, episode := none,
        detectedStudios := ["FOX"], detectedActors := ["Actor A"],
        mensaje := some "No se pudo identificar" } := by
  constructor
  · have h := query_errors_bounded_and_isolated.1 allExnOracle "q" "es" false 3
    simpa using h
  · have h := query_errors_bounded_and_isolated.2.2.2 exnEnv cfgFix "/videos/x.mkv"
      rfl (fun _ _ _ _ => rfl) (fun _ => rfl)
    exact h.trans (by decide)

/-- Claim C10: a result identified as a series always carries integer
season and episode values — the values extracted from the filename when
a pattern is present, and the silent default `1`/`1` otherwise. -/
theorem series_result_has_season_episode :
    ∀ env cfg fp,
      (process_single_video env cfg fp).identificado = true →
      (process_single_video env cfg fp).esPelicula = some false →
      ((process_single_video env cfg fp).season.isSome = true ∧
        (process_single_video env cfg fp).episode.isSome = true) ∧
      (extract_season_episode_from_filename (pyBasename fp) = none →
        (process_single_video env cfg fp).season = some 1 ∧
        (process_single_video env cfg fp).episode = some 1) ∧
      (∀ s e, extract_season_episode_from_filename (pyBasename fp) = some (s, e) →
        (process_single_video env cfg fp).season = some s ∧
        (process_single_video env cfg fp).episode = some e) := by
  intro env cfg fp hid hser
  cases hvb : env.fileValid
  · unfold process_single_video at hid
    rw [hvb] at hid
    simp at hid
  · unfold process_single_video at hid hser ⊢
    rw [hvb] at hid hser ⊢
    simp only [Bool.not_true, Bool.false_eq_true, if_false] at hid hser ⊢
    cases hch : chainCode env cfg (clean_filename (pyBasename fp)) with
    | none =>
      simp only [hch] at hid
      exact absurd hid (by decide)
    | some x =>
      obtain ⟨item, isMovie⟩ := x
      simp only [hch] at hser ⊢
      have hm : isMovie = false := by
        injection hser with h'
      subst hm
      cases hex : extract_season_episode_from_filename (pyBasename fp) with
      | none => simp [hex]
      | some se =>
        obtain ⟨s, e⟩ := se
        simp [hex]

/-- Witness for C10: a series file whose name has no pattern gets
season 1, episode 1. -/
theorem series_result_has_season_episode_witness :
    (process_single_video seriesEnv cfgFix "/videos/MyShow.mkv").season = some 1 ∧
    (process_single_video seriesEnv cfgFix "/videos/MyShow.mkv").episode = some 1 := by
  have h := series_result_has_season_episode seriesEnv cfgFix "/videos/MyShow.mkv"
    (by decide) (by decide)
  exact h.2.1 (by decide)

end VideoSort
